import Mathlib

/-!
# Spaceship DNS provider module for Caddy: configuration parsing and provisioning

A shallow embedding of `module.go` (`Provider.UnmarshalCaddyfile`, `Provider.Provision`)
together with the library routines the two functions call:

* `caddyfile.Dispenser` (`Next`, `NextArg`, `NextBlock`, `Nesting`, `Val`, `Err`, `Errf`,
  `ArgErr`) from `github.com/caddyserver/caddy/v2/caddyconfig/caddyfile`,
* `strconv.Atoi` (with `ParseInt` / `ParseUint` for base 10) on a 64-bit platform,
* `time.Duration` arithmetic (signed 64-bit nanoseconds).

Pointers are replaced by explicit state passing: every operation returns the new
`Dispenser` / `Provider` next to its Go result.  The two `for` loops of
`UnmarshalCaddyfile` are driven by a fuel counter; `UnmarshalCaddyfile_total` shows that the
fuel handed out by `UnmarshalCaddyfile` is always enough.
-/

namespace Spaceship

/-! ## Tokens and the dispenser -/

/-- A lexer token (`caddyfile.Token`): source file, import chain, line, text and the quote
rune (`0` when the token was not quoted, `'<'` for a heredoc). -/
structure Token where
  mk ::
  (File : String) (imports : List String) (Line : Int) (Text : String) (wasQuoted : Char)
  deriving DecidableEq, Repr

/-- The zero value `Token{}`. -/
def Token.zero : Token := ⟨"", [], 0, "", Char.ofNat 0⟩

/-- `Token.NumLineBreaks`: line breaks inside the token text; a heredoc has two more. -/
def Token.NumLineBreaks (t : Token) : Int :=
  (t.Text.toList.count '\n' : Nat) + (if t.wasQuoted = '<' then 2 else 0)

/-- `isNextOnNewLine t1 t2`: whether `t2` is on a different line from `t1`. -/
def isNextOnNewLine (t1 t2 : Token) : Bool :=
  if t1.File ≠ t2.File then true
  else if t1.imports ≠ t2.imports then true
  else decide (t1.Line + t1.NumLineBreaks < t2.Line)

/-- `caddyfile.Dispenser`: the token slice, the cursor (`-1` before the first token) and the
current block nesting level. -/
structure Dispenser where
  tokens : List Token
  cursor : Int
  nesting : Int
  deriving DecidableEq, Repr

/-- `caddyfile.NewDispenser`. -/
def NewDispenser (tokens : List Token) : Dispenser := ⟨tokens, -1, 0⟩

namespace Dispenser

/-- `d.tokens[i]`, with the zero token standing in for an index out of range (the Go code
only indexes in range). -/
def tokenAt (d : Dispenser) (i : Int) : Token :=
  if i < 0 then Token.zero else d.tokens.getD i.toNat Token.zero

/-- `Dispenser.Token`: the current token, or the zero token when none is loaded. -/
def Token (d : Dispenser) : Spaceship.Token :=
  if d.cursor < 0 ∨ d.cursor ≥ d.tokens.length then Token.zero else d.tokenAt d.cursor

/-- `Dispenser.Val`: text of the current token, `""` when none is loaded. -/
def Val (d : Dispenser) : String :=
  if d.cursor < 0 ∨ d.cursor ≥ d.tokens.length then "" else (d.tokenAt d.cursor).Text

/-- `Dispenser.File`. -/
def File (d : Dispenser) : String :=
  if d.cursor < 0 ∨ d.cursor ≥ d.tokens.length then "" else (d.tokenAt d.cursor).File

/-- `Dispenser.Line`. -/
def Line (d : Dispenser) : Int :=
  if d.cursor < 0 ∨ d.cursor ≥ d.tokens.length then 0 else (d.tokenAt d.cursor).Line

/-- `Dispenser.Nesting`. -/
def Nesting (d : Dispenser) : Int := d.nesting

/-- `Dispenser.Next`: load the next token if there is one. -/
def Next (d : Dispenser) : Bool × Dispenser :=
  if d.cursor < (d.tokens.length : Int) - 1 then (true, { d with cursor := d.cursor + 1 })
  else (false, d)

/-- `Dispenser.nextOnSameLine`: advance if the next token is on the same line of the same
file. -/
def nextOnSameLine (d : Dispenser) : Bool × Dispenser :=
  if d.cursor < 0 then (true, { d with cursor := d.cursor + 1 })
  else if d.cursor ≥ (d.tokens.length : Int) - 1 then (false, d)
  else if !isNextOnNewLine (d.tokenAt d.cursor) (d.tokenAt (d.cursor + 1)) then
    (true, { d with cursor := d.cursor + 1 })
  else (false, d)

/-- `Dispenser.NextArg`: load the next token if it is on the same line and is not a block
opening. -/
def NextArg (d : Dispenser) : Bool × Dispenser :=
  let r := d.nextOnSameLine
  if !r.1 then (false, r.2)
  else if r.2.Val = "\x7b" then (false, { r.2 with cursor := r.2.cursor - 1 })
  else (true, r.2)

/-- `Dispenser.NextBlock`. -/
def NextBlock (d : Dispenser) (initialNestingLevel : Int) : Bool × Dispenser :=
  if d.nesting > initialNestingLevel then
    let r := d.Next
    if !r.1 then (false, r.2)
    else
      let d1 := r.2
      if d1.Val = "\x7d" then
        let s := d1.nextOnSameLine
        if !s.1 then
          let d2 := { s.2 with nesting := s.2.nesting - 1 }
          (decide (d2.nesting > initialNestingLevel), d2)
        else if s.2.Val = "\x7b" then
          -- the `else if` arm is evaluated on the advanced cursor
          let s2 := s.2.nextOnSameLine
          if !s2.1 then
            let d2 := { s2.2 with nesting := s2.2.nesting + 1 }
            (decide (d2.nesting > initialNestingLevel), d2)
          else (decide (s2.2.nesting > initialNestingLevel), s2.2)
        else (decide (s.2.nesting > initialNestingLevel), s.2)
      else if d1.Val = "\x7b" then
        let s := d1.nextOnSameLine
        if !s.1 then
          let d2 := { s.2 with nesting := s.2.nesting + 1 }
          (decide (d2.nesting > initialNestingLevel), d2)
        else (decide (s.2.nesting > initialNestingLevel), s.2)
      else (decide (d1.nesting > initialNestingLevel), d1)
  else
    let r := d.nextOnSameLine
    if !r.1 then (false, r.2)
    else if r.2.Val ≠ "\x7b" then (false, { r.2 with cursor := r.2.cursor - 1 })
    else
      let d1 := (r.2.Next).2
      if d1.Val = "\x7d" then (false, d1)
      else (true, { d1 with nesting := d1.nesting + 1 })

end Dispenser

/-- A parse error produced by `Dispenser.Err` / `Errf`: the message together with the
position (`File`, `Line`, import chain) of the token the dispenser was on. -/
structure Error where
  mk ::
  (msg : String) (File : String) (Line : Int) (imports : List String)
  deriving DecidableEq, Repr

namespace Dispenser

/-- `Dispenser.Err` (and `Errf` once the message is formatted). -/
def Err (d : Dispenser) (msg : String) : Error :=
  ⟨msg, d.File, d.Line, d.Token.imports⟩

/-- `Dispenser.ArgErr`. -/
def ArgErr (d : Dispenser) : Error :=
  if d.Val = "\x7b" then d.Err "unexpected token '\x7b', expecting argument"
  else d.Err ("wrong argument count or unexpected line ending after '" ++ d.Val ++ "'")

end Dispenser

/-! ## `strconv.Atoi` (base 10, 64-bit `int`) -/

/-- The two error kinds of `strconv.NumError`. -/
inductive NumError where
  | ErrSyntax
  | ErrRange
  deriving DecidableEq, Repr

/-- `strconv.IntSize` on the 64-bit platforms the module is built for. -/
def intSize : Nat := 64

/-- The loop of `strconv.ParseUint(s, 10, 0)` over the remaining bytes, `n` being the value
read so far: a byte that is not a decimal digit is a syntax error; a value that does not fit
in 64 bits is a range error, reported with `maxVal`. -/
def parseUintLoop : List Char → Nat → Nat × Option NumError
  | [], n => (n, none)
  | c :: cs, n =>
    if '0' ≤ c ∧ c ≤ '9' then
      if n ≥ (2 ^ 64 - 1) / 10 + 1 then (2 ^ 64 - 1, some NumError.ErrRange)
      else if n * 10 + (c.toNat - '0'.toNat) > 2 ^ 64 - 1 then
        (2 ^ 64 - 1, some NumError.ErrRange)
      else parseUintLoop cs (n * 10 + (c.toNat - '0'.toNat))
    else (0, some NumError.ErrSyntax)

/-- `strconv.ParseUint(s, 10, 0)`. -/
def ParseUint (s : List Char) : Nat × Option NumError :=
  if s = [] then (0, some NumError.ErrSyntax) else parseUintLoop s 0

/-- `strconv.ParseInt(s, 10, 0)`. -/
def ParseInt (s : List Char) : Int × Option NumError :=
  match s with
  | [] => (0, some NumError.ErrSyntax)
  | c :: cs =>
    let neg : Bool := c = '-'
    let body := if c = '+' ∨ c = '-' then cs else c :: cs
    let r := ParseUint body
    if r.2 = some NumError.ErrSyntax then (0, some NumError.ErrSyntax)
    else if !neg ∧ r.1 ≥ 2 ^ (intSize - 1) then
      ((2 ^ (intSize - 1) - 1 : Nat), some NumError.ErrRange)
    else if neg ∧ r.1 > 2 ^ (intSize - 1) then
      (-(2 ^ (intSize - 1) : Nat), some NumError.ErrRange)
    else if neg then (-(r.1 : Int), none) else ((r.1 : Int), none)

/-- The fast-path loop of `strconv.Atoi`: decimal digits only, no range check. -/
def atoiFastLoop : List Char → Nat → Option Nat
  | [], n => some n
  | c :: cs, n =>
    if '0' ≤ c ∧ c ≤ '9' then atoiFastLoop cs (n * 10 + (c.toNat - '0'.toNat)) else none

/-- `strconv.Atoi`: the value and the error (`none` for `nil`).  Strings of 1 to 18 bytes
take the fast path, all others go through `ParseInt`. -/
def Atoi (s : String) : Int × Option NumError :=
  if 0 < s.utf8ByteSize ∧ s.utf8ByteSize < 19 then
    match s.toList with
    | [] => (0, some NumError.ErrSyntax)
    | c :: cs =>
      let body := if c = '-' ∨ c = '+' then cs else c :: cs
      if body.length < 1 then (0, some NumError.ErrSyntax)
      else
        match atoiFastLoop body 0 with
        | none => (0, some NumError.ErrSyntax)
        | some n => if c = '-' then (-(n : Int), none) else ((n : Int), none)
  else ParseInt s.toList

/-! ## The provider record -/

/-- `time.Duration`: nanoseconds as a signed 64-bit integer. -/
abbrev Duration := Int

/-- `time.Second`. -/
def Second : Duration := 1000000000

/-- Wrap-around of a signed 64-bit result. -/
def wrap64 (x : Int) : Int := (x + 2 ^ 63) % 2 ^ 64 - 2 ^ 63

/-- `time.Duration(secs) * time.Second` in 64-bit arithmetic. -/
def secondsToDuration (secs : Int) : Duration := wrap64 (secs * Second)

/-- `http.Client`: the `Timeout` field, and `other` standing for the fields the module never
touches (`Transport`, `CheckRedirect`, `Jar`; `0` when all are nil). -/
structure Client where
  Timeout : Duration
  other : Nat
  deriving DecidableEq, Repr

/-- The fields of `libdnsspaceship.Provider` that the module reads or writes. -/
structure Provider where
  APIKey : String
  APISecret : String
  BaseURL : String
  PageSize : Int
  HTTPClient : Option Client
  deriving DecidableEq, Repr

/-- `new(libdnsspaceship.Provider)`: the zero value. -/
def Provider.empty : Provider := ⟨"", "", "", 0, none⟩

/-! ## `Provider.UnmarshalCaddyfile` -/

/-- Outcome of a piece of the parser: the provider and dispenser it leaves behind and the
error it returned (`none` when it fell through without returning). -/
abbrev Step := Provider × Dispenser × Option Error

/-- Lines 68-76: the optional inline arguments `api_key [api_secret]`. -/
def inlineArgs (p : Provider) (d : Dispenser) : Step :=
  let a1 := d.NextArg
  let p1 := if a1.1 then { p with APIKey := a1.2.Val } else p
  let a2 := a1.2.NextArg
  let p2 := if a2.1 then { p1 with APISecret := a2.2.Val } else p1
  let a3 := a2.2.NextArg
  if a3.1 then (p2, a3.2, some a3.2.ArgErr) else (p2, a3.2, none)

/-- The tail shared by every case of the switch: `if d.NextArg() { return d.ArgErr() }`. -/
def noExtraArgs (p : Provider) (d : Dispenser) : Step :=
  let a := d.NextArg
  if a.1 then (p, a.2, some a.2.ArgErr) else (p, a.2, none)

/-- Lines 78-142: the body of the block loop, one `switch d.Val()`. -/
def subdirective (p : Provider) (d : Dispenser) : Step :=
  if d.Val = "api_key" then
    if p.APIKey ≠ "" then (p, d, some (d.Err "api_key already set"))
    else
      let a := d.NextArg
      if !a.1 then (p, a.2, some (a.2.Err "api_key requires value"))
      else noExtraArgs { p with APIKey := a.2.Val } a.2
  else if d.Val = "api_secret" then
    if p.APISecret ≠ "" then (p, d, some (d.Err "api_secret already set"))
    else
      let a := d.NextArg
      if !a.1 then (p, a.2, some (a.2.Err "api_secret requires value"))
      else noExtraArgs { p with APISecret := a.2.Val } a.2
  else if d.Val = "api_url" then
    if p.BaseURL ≠ "" then (p, d, some (d.Err "api_url already set"))
    else
      let a := d.NextArg
      if !a.1 then (p, a.2, some (a.2.Err "api_url requires value"))
      else noExtraArgs { p with BaseURL := a.2.Val } a.2
  else if d.Val = "api_pagesize" then
    let a := d.NextArg
    if !a.1 then (p, a.2, some (a.2.Err "api_pagesize requires value"))
    else
      let ps := Atoi a.2.Val
      if ps.2 ≠ none ∨ ps.1 ≤ 0 then
        (p, a.2, some (a.2.Err "api_pagesize must be a positive integer"))
      else noExtraArgs { p with PageSize := ps.1 } a.2
  else if d.Val = "api_timeout" then
    let a := d.NextArg
    if !a.1 then (p, a.2, some (a.2.Err "api_timeout requires value (seconds)"))
    else
      let secs := Atoi a.2.Val
      if secs.2 ≠ none ∨ secs.1 ≤ 0 then
        (p, a.2, some (a.2.Err "api_timeout must be a positive integer (seconds)"))
      else
        let c : Client :=
          match p.HTTPClient with
          | none => { Timeout := secondsToDuration secs.1, other := 0 }
          | some c0 => { c0 with Timeout := secondsToDuration secs.1 }
        noExtraArgs { p with HTTPClient := some c } a.2
  else (p, d, some (d.Err ("unrecognized subdirective '" ++ d.Val ++ "'")))

/-- Line 77: `for nesting := d.Nesting(); d.NextBlock(nesting); { ... }`, with `nesting`
already read.  `none` means the fuel ran out. -/
def blockLoop (nesting : Int) : Nat → Provider → Dispenser → Option Step
  | 0, _, _ => none
  | fuel + 1, p, d =>
    let nb := d.NextBlock nesting
    if nb.1 then
      let r := subdirective p nb.2
      match r.2.2 with
      | some e => some (r.1, r.2.1, some e)
      | none => blockLoop nesting fuel r.1 r.2.1
    else some (p, nb.2, none)

/-- Lines 66-144: `for d.Next() { ... }`.  `none` means the fuel ran out. -/
def directiveLoop : Nat → Provider → Dispenser → Option Step
  | 0, _, _ => none
  | fuel + 1, p, d =>
    let nx := d.Next
    if nx.1 then
      let r := inlineArgs p nx.2
      match r.2.2 with
      | some e => some (r.1, r.2.1, some e)
      | none =>
        match blockLoop r.2.1.Nesting fuel r.1 r.2.1 with
        | none => none
        | some b =>
          match b.2.2 with
          | some e => some (b.1, b.2.1, some e)
          | none => directiveLoop fuel b.1 b.2.1
    else some (p, nx.2, none)

/-- Fuel for the loops: one unit per token that is still ahead of the cursor, plus one for
the final failing test of each loop. -/
def Dispenser.fuel (d : Dispenser) : Nat := ((d.tokens.length : Int) - d.cursor).toNat + 1

/-- `Provider.UnmarshalCaddyfile`: the provider and dispenser after the call and the error
it returns (`none` for `nil`).  The outer `none` means the loops ran out of fuel, which
`UnmarshalCaddyfile_total` excludes. -/
def UnmarshalCaddyfile (p : Provider) (d : Dispenser) : Option Step :=
  match directiveLoop d.fuel p d with
  | none => none
  | some r =>
    match r.2.2 with
    | some e => some (r.1, r.2.1, some e)
    | none =>
      if r.1.APIKey = "" ∨ r.1.APISecret = "" then
        some (r.1, r.2.1, some (r.2.1.Err "missing api_key or api_secret"))
      else some (r.1, r.2.1, none)

/-! ## `Provider.Provision` -/

/-- The error value of `fmt.Errorf` in `Provision`. -/
def credentialsRequired : String := "spaceship: api_key and api_secret are required"

/-- Lines 35-37 and again 43-45 of `Provision`: placeholder expansion of the three text
fields.  `replaceAll s` is `repl.ReplaceAll(s, "")` for the replacer made by
`caddy.NewReplacer()`. -/
def expandFields (replaceAll : String → String) (p : Provider) : Provider :=
  { p with APIKey := replaceAll p.APIKey,
           APISecret := replaceAll p.APISecret,
           BaseURL := replaceAll p.BaseURL }

/-- Lines 48-50 of `Provision`: a configured HTTP client without timeout gets 30 seconds. -/
def defaultTimeout (p : Provider) : Provider :=
  match p.HTTPClient with
  | some c =>
    if c.Timeout = 0 then { p with HTTPClient := some { c with Timeout := 30 * Second } } else p
  | none => p

/-- `Provider.Provision`.  The replacer `replaceAll` and the wrapped provider's
`populateFromEnv` (`p.Provider.PopulateFromEnv()`) belong to other packages and are taken as
parameters.  The result is the provider after the call and the error message (`none` for
`nil`). -/
def Provision (replaceAll : String → String) (populateFromEnv : Provider → Provider)
    (p : Provider) : Provider × Option String :=
  let p1 := expandFields replaceAll p
  let p2 := populateFromEnv p1
  let p3 := expandFields replaceAll p2
  let p4 := defaultTimeout p3
  if p4.APIKey = "" ∨ p4.APISecret = "" then (p4, some credentialsRequired) else (p4, none)

/-! ## Auxiliary definitions used in the statements and proofs -/

/-- The dispenser standing on `cur`, with `front` behind the cursor and `rest` ahead. -/
def Dispenser.on (front : List Spaceship.Token) (cur : Spaceship.Token)
    (rest : List Spaceship.Token) (nesting : Int) : Dispenser :=
  ⟨front ++ cur :: rest, front.length, nesting⟩

/-- Tokens still ahead of the cursor (counting the one under it). -/
def Dispenser.ahead (d : Dispenser) : Nat := ((d.tokens.length : Int) - d.cursor).toNat

/-- Value of a run of decimal digits read left to right, starting from `acc`. -/
def digitsVal (cs : List Char) (acc : Nat) : Nat :=
  cs.foldl (fun n c => n * 10 + (c.toNat - '0'.toNat)) acc

/-- The spec's reading of a base-10 integer: an optional sign followed by one or more decimal
digits; `none` for every other text. -/
def decimalValue (cs : List Char) : Option Int :=
  match cs with
  | [] => none
  | c :: rest =>
    let body := if c = '+' ∨ c = '-' then rest else c :: rest
    if body ≠ [] ∧ ∀ x ∈ body, ('0' ≤ x ∧ x ≤ '9') then
      some (if c = '-' then -(digitsVal body 0 : Int) else (digitsVal body 0 : Int))
    else none

/-- The effect of one accepted sub-directive `name value` on the provider, read off the five
cases of the switch. -/
def applySub (p : Provider) (name value : String) : Provider :=
  if name = "api_key" then { p with APIKey := value }
  else if name = "api_secret" then { p with APISecret := value }
  else if name = "api_url" then { p with BaseURL := value }
  else if name = "api_pagesize" then { p with PageSize := (Atoi value).1 }
  else if name = "api_timeout" then
    let c : Client :=
      match p.HTTPClient with
      | none => { Timeout := secondsToDuration (Atoi value).1, other := 0 }
      | some c0 => { c0 with Timeout := secondsToDuration (Atoi value).1 }
    { p with HTTPClient := some c }
  else p

/-- The sub-directive `name value` passes every check of its case when met with provider
`p`: the value is an argument (not an opening brace), a credential or URL is not yet set, a
page size or timeout is a positive `int`. -/
def subOK (p : Provider) (name value : String) : Prop :=
  value ≠ "\x7b" ∧
    ((name = "api_key" ∧ p.APIKey = "") ∨ (name = "api_secret" ∧ p.APISecret = "") ∨
      (name = "api_url" ∧ p.BaseURL = "") ∨
      (name = "api_pagesize" ∧ (Atoi value).2 = none ∧ 0 < (Atoi value).1) ∨
      (name = "api_timeout" ∧ (Atoi value).2 = none ∧ 0 < (Atoi value).1))

instance subOK.decidable (p : Provider) (name value : String) : Decidable (subOK p name value) := by
  delta subOK; infer_instance

/-- The line of `v` ends there: nothing follows, or what follows is on a new line. -/
def lineEnds (v : Token) (rest : List Token) : Prop :=
  match rest with
  | [] => True
  | y :: _ => isNextOnNewLine v y = true

instance lineEnds.decidable (v : Token) (rest : List Token) : Decidable (lineEnds v rest) :=
  match rest with
  | [] => isTrue trivial
  | y :: _ => inferInstanceAs (Decidable (isNextOnNewLine v y = true))

/-- Tokens of a run of two-token lines `name value`. -/
def lineTokens : List (Token × Token) → List Token
  | [] => []
  | l :: ls => l.1 :: l.2 :: lineTokens ls

/-- Layout of a run of two-token lines followed by `rest`: the two tokens of a line are on
one line and the line ends after them. -/
def Laid : List (Token × Token) → List Token → Prop
  | [], _ => True
  | l :: ls, rest =>
    isNextOnNewLine l.1 l.2 = false ∧ lineEnds l.2 (lineTokens ls ++ rest) ∧ Laid ls rest

/-- Deciding `Laid` by recursion on the run. -/
def Laid.dec : (ls : List (Token × Token)) → (rest : List Token) → Decidable (Laid ls rest)
  | [], _ => isTrue trivial
  | l :: ls, rest =>
    have := Laid.dec ls rest
    inferInstanceAs (Decidable (isNextOnNewLine l.1 l.2 = false ∧
      lineEnds l.2 (lineTokens ls ++ rest) ∧ Laid ls rest))

instance Laid.decidable (ls : List (Token × Token)) (rest : List Token) :
    Decidable (Laid ls rest) := Laid.dec ls rest

/-- Every line of the run passes its checks when met in turn, starting from `p`. -/
def linesOK : Provider → List (Token × Token) → Prop
  | _, [] => True
  | p, l :: ls => subOK p l.1.Text l.2.Text ∧ linesOK (applySub p l.1.Text l.2.Text) ls

/-- Deciding `linesOK` by recursion on the run. -/
def linesOK.dec : (p : Provider) → (ls : List (Token × Token)) → Decidable (linesOK p ls)
  | _, [] => isTrue trivial
  | p, l :: ls =>
    have := linesOK.dec (applySub p l.1.Text l.2.Text) ls
    inferInstanceAs (Decidable (subOK p l.1.Text l.2.Text ∧
      linesOK (applySub p l.1.Text l.2.Text) ls))

instance linesOK.decidable (p : Provider) (ls : List (Token × Token)) :
    Decidable (linesOK p ls) := linesOK.dec p ls

/-- The provider after the run of lines. -/
def applyLines (p : Provider) (ls : List (Token × Token)) : Provider :=
  ls.foldl (fun q l => applySub q l.1.Text l.2.Text) p

/-- A line whose value is acceptable whatever was parsed before it: the value is not an
opening brace, the name is one of the five, a page size or timeout is a positive `int`. -/
def valueOK (name value : String) : Prop :=
  value ≠ "\x7b" ∧
    (name = "api_key" ∨ name = "api_secret" ∨ name = "api_url" ∨
      ((name = "api_pagesize" ∨ name = "api_timeout") ∧
        (Atoi value).2 = none ∧ 0 < (Atoi value).1))

instance valueOK.decidable (name value : String) : Decidable (valueOK name value) := by
  delta valueOK; infer_instance

/-- Layout of the directive line: the inline arguments follow `c` on its line, none of them is
an opening brace, and the token `o` after them is still on that line. -/
def InlineOK : Token → List Token → Token → Prop
  | c, [], o => isNextOnNewLine c o = false
  | c, a :: as, o => isNextOnNewLine c a = false ∧ a.Text ≠ "\x7b" ∧ InlineOK a as o

/-- Deciding `InlineOK` by recursion on the arguments. -/
def InlineOK.dec : (c : Token) → (inl : List Token) → (o : Token) → Decidable (InlineOK c inl o)
  | c, [], o => inferInstanceAs (Decidable (isNextOnNewLine c o = false))
  | c, a :: as, o =>
    have := InlineOK.dec a as o
    inferInstanceAs (Decidable (isNextOnNewLine c a = false ∧ a.Text ≠ "\x7b" ∧ InlineOK a as o))

instance InlineOK.decidable (c : Token) (inl : List Token) (o : Token) :
    Decidable (InlineOK c inl o) := InlineOK.dec c inl o

/-- The provider after the inline arguments: the first is the key, the second the secret. -/
def applyInline (p : Provider) : List Token → Provider
  | [] => p
  | [a] => { p with APIKey := a.Text }
  | a :: b :: _ => { p with APIKey := a.Text, APISecret := b.Text }

/-- An unquoted token of the file `Caddyfile`. -/
def tok (line : Int) (text : String) : Token := ⟨"Caddyfile", [], line, text, Char.ofNat 0⟩

/-- The spec's acceptance condition for a page size or timeout value: the text is a base-10
integer (optional sign, digits) within the 64-bit `int` range whose value is greater than 0. -/
def IsPositiveInt (v : String) : Prop :=
  ∃ n : Int, decimalValue v.toList = some n ∧ -(2 : Int) ^ 63 ≤ n ∧ n ≤ 2 ^ 63 - 1 ∧ 0 < n

/-- The HTTP client after the `api_timeout` case stored the duration `t`: a fresh client when
none was configured, the configured one with a new `Timeout` otherwise. -/
def withTimeout (c : Option Client) (t : Duration) : Client :=
  match c with
  | none => { Timeout := t, other := 0 }
  | some c0 => { c0 with Timeout := t }

instance IsPositiveInt.decidable (v : String) : Decidable (IsPositiveInt v) :=
  match h : decimalValue v.toList with
  | none => isFalse (fun ⟨_, hn, _⟩ => by rw [h] at hn; exact Option.noConfusion hn)
  | some n =>
    if hr : -(2 : Int) ^ 63 ≤ n ∧ n ≤ 2 ^ 63 - 1 ∧ 0 < n then isTrue ⟨n, h, hr⟩
    else isFalse (fun ⟨m, hm, hmr⟩ => hr (by rw [h] at hm; cases hm; exact hmr))

/-- The values the environment supplies for the three text fields. -/
structure Env where
  APIKey : String
  APISecret : String
  BaseURL : String

/-- Modelled from the spec: `PopulateFromEnv` of the wrapped provider, a function of the
package `libdnsspaceship` outside this repository.  Each of `APIKey`, `APISecret`, `BaseURL`
that is still empty is filled from the environment; nothing else changes. -/
def PopulateFromEnv (env : Env) (p : Provider) : Provider :=
  { p with APIKey := if p.APIKey = "" then env.APIKey else p.APIKey,
           APISecret := if p.APISecret = "" then env.APISecret else p.APISecret,
           BaseURL := if p.BaseURL = "" then env.BaseURL else p.BaseURL }

/-- The arguments on the line of `c` end before `rest`: nothing follows, or what follows is on
a new line or is the opening brace. -/
def argsEnd (c : Token) (rest : List Token) : Prop :=
  match rest with
  | [] => True
  | y :: _ => isNextOnNewLine c y = true ∨ y.Text = "\x7b"

instance argsEnd.decidable (c : Token) (rest : List Token) : Decidable (argsEnd c rest) :=
  match rest with
  | [] => isTrue trivial
  | y :: _ => inferInstanceAs (Decidable (isNextOnNewLine c y = true ∨ y.Text = "\x7b"))

/-- Whether the text `hay` starts with the text `needle`. -/
def startsWith : (needle hay : List Char) → Bool
  | [], _ => true
  | _ :: _, [] => false
  | a :: as, b :: bs => a == b && startsWith as bs

/-- Whether the text `needle` occurs somewhere in the text `hay`. -/
def occursIn (needle : List Char) : (hay : List Char) → Bool
  | [] => startsWith needle []
  | c :: cs => startsWith needle (c :: cs) || occursIn needle cs

/-! ## The dispenser on a known position -/

theorem getD_mid (f : List Token) (c : Token) (r : List Token) (z : Token) :
    (f ++ c :: r).getD f.length z = c := by
  induction f with
  | nil => rfl
  | cons a f ih => simpa using ih

theorem on_shift (f : List Token) (c x : Token) (r : List Token) (n : Int) :
    (⟨f ++ c :: x :: r, (f.length : Int) + 1, n⟩ : Dispenser) = Dispenser.on (f ++ [c]) x r n := by
  simp [Dispenser.on]

theorem on_tokenAt (f : List Token) (c : Token) (r : List Token) (n : Int) :
    (Dispenser.on f c r n).tokenAt f.length = c := by
  have h : ¬ ((f.length : Int) < 0) := by omega
  unfold Dispenser.tokenAt Dispenser.on
  rw [if_neg h]
  exact getD_mid f c r _

theorem on_tokenAt_succ (f : List Token) (c x : Token) (r : List Token) (n : Int) :
    (Dispenser.on f c (x :: r) n).tokenAt ((f.length : Int) + 1) = x := by
  have h := on_tokenAt (f ++ [c]) x r n
  have e : (((f ++ [c]).length : Nat) : Int) = (f.length : Int) + 1 := by simp
  rw [e] at h
  have ht : (Dispenser.on (f ++ [c]) x r n).tokens = (Dispenser.on f c (x :: r) n).tokens := by
    simp [Dispenser.on]
  unfold Dispenser.tokenAt at h ⊢
  rw [← ht]; exact h

theorem on_inRange (f : List Token) (c : Token) (r : List Token) :
    ¬ (((f.length : Int) < 0) ∨ ((f.length : Int) ≥ ((f ++ c :: r).length : Int))) := by
  simp only [List.length_append, List.length_cons]; omega

@[simp] theorem on_Val (f : List Token) (c : Token) (r : List Token) (n : Int) :
    (Dispenser.on f c r n).Val = c.Text := by
  have h := on_tokenAt f c r n
  have h2 : ¬ ((Dispenser.on f c r n).cursor < 0 ∨
      (Dispenser.on f c r n).cursor ≥ (Dispenser.on f c r n).tokens.length) := on_inRange f c r
  unfold Dispenser.Val
  rw [if_neg h2]
  exact congrArg Token.Text h

@[simp] theorem on_Token (f : List Token) (c : Token) (r : List Token) (n : Int) :
    (Dispenser.on f c r n).Token = c := by
  have h := on_tokenAt f c r n
  have h2 : ¬ ((Dispenser.on f c r n).cursor < 0 ∨
      (Dispenser.on f c r n).cursor ≥ (Dispenser.on f c r n).tokens.length) := on_inRange f c r
  unfold Dispenser.Token
  rw [if_neg h2]
  exact h

@[simp] theorem on_File (f : List Token) (c : Token) (r : List Token) (n : Int) :
    (Dispenser.on f c r n).File = c.File := by
  have h := on_tokenAt f c r n
  have h2 : ¬ ((Dispenser.on f c r n).cursor < 0 ∨
      (Dispenser.on f c r n).cursor ≥ (Dispenser.on f c r n).tokens.length) := on_inRange f c r
  unfold Dispenser.File
  rw [if_neg h2]
  exact congrArg Token.File h

@[simp] theorem on_Line (f : List Token) (c : Token) (r : List Token) (n : Int) :
    (Dispenser.on f c r n).Line = c.Line := by
  have h := on_tokenAt f c r n
  have h2 : ¬ ((Dispenser.on f c r n).cursor < 0 ∨
      (Dispenser.on f c r n).cursor ≥ (Dispenser.on f c r n).tokens.length) := on_inRange f c r
  unfold Dispenser.Line
  rw [if_neg h2]
  exact congrArg Token.Line h

@[simp] theorem on_nesting (f : List Token) (c : Token) (r : List Token) (n : Int) :
    (Dispenser.on f c r n).nesting = n := rfl

@[simp] theorem on_Nesting (f : List Token) (c : Token) (r : List Token) (n : Int) :
    (Dispenser.on f c r n).Nesting = n := rfl

@[simp] theorem on_setNesting (f : List Token) (c : Token) (r : List Token) (n m : Int) :
    { Dispenser.on f c r n with nesting := m } = Dispenser.on f c r m := rfl

@[simp] theorem on_Err (f : List Token) (c : Token) (r : List Token) (n : Int) (msg : String) :
    (Dispenser.on f c r n).Err msg = ⟨msg, c.File, c.Line, c.imports⟩ := by
  simp [Dispenser.Err]

@[simp] theorem on_Next_nil (f : List Token) (c : Token) (n : Int) :
    (Dispenser.on f c [] n).Next = (false, Dispenser.on f c [] n) := by
  simp [Dispenser.Next, Dispenser.on]

@[simp] theorem on_Next_cons (f : List Token) (c x : Token) (r : List Token) (n : Int) :
    (Dispenser.on f c (x :: r) n).Next = (true, Dispenser.on (f ++ [c]) x r n) := by
  have h : (f.length : Int) < ((f ++ c :: x :: r).length : Int) - 1 := by
    simp only [List.length_append, List.length_cons]; omega
  unfold Dispenser.Next
  have hc : (Dispenser.on f c (x :: r) n).cursor = f.length := rfl
  have ht : (Dispenser.on f c (x :: r) n).tokens = f ++ c :: x :: r := rfl
  rw [hc, ht, if_pos h, ← on_shift]
  rfl

@[simp] theorem on_nextOnSameLine_nil (f : List Token) (c : Token) (n : Int) :
    (Dispenser.on f c [] n).nextOnSameLine = (false, Dispenser.on f c [] n) := by
  have h : ¬ ((f.length : Int) < 0) := by omega
  simp [Dispenser.nextOnSameLine, Dispenser.on, h]

theorem on_nextOnSameLine_cons (f : List Token) (c x : Token) (r : List Token) (n : Int) :
    (Dispenser.on f c (x :: r) n).nextOnSameLine =
      if isNextOnNewLine c x then (false, Dispenser.on f c (x :: r) n)
      else (true, Dispenser.on (f ++ [c]) x r n) := by
  have h : ¬ ((f.length : Int) < 0) := by omega
  have h1 : ¬ ((f.length : Int) ≥ ((f ++ c :: x :: r).length : Int) - 1) := by
    simp only [List.length_append, List.length_cons]; omega
  have e1 := on_tokenAt f c (x :: r) n
  have e2 := on_tokenAt_succ f c x r n
  unfold Dispenser.nextOnSameLine
  have hc : (Dispenser.on f c (x :: r) n).cursor = f.length := rfl
  have ht : (Dispenser.on f c (x :: r) n).tokens = f ++ c :: x :: r := rfl
  rw [hc, ht, if_neg h, if_neg h1, e1, e2]
  cases isNextOnNewLine c x
  · simp only [Bool.not_false, if_true, Bool.false_eq_true, if_false]
    rw [← on_shift]; rfl
  · simp

@[simp] theorem on_NextArg_nil (f : List Token) (c : Token) (n : Int) :
    (Dispenser.on f c [] n).NextArg = (false, Dispenser.on f c [] n) := by
  simp [Dispenser.NextArg]

theorem on_NextArg_cons (f : List Token) (c x : Token) (r : List Token) (n : Int) :
    (Dispenser.on f c (x :: r) n).NextArg =
      if isNextOnNewLine c x then (false, Dispenser.on f c (x :: r) n)
      else if x.Text = "\x7b" then (false, Dispenser.on f c (x :: r) n)
      else (true, Dispenser.on (f ++ [c]) x r n) := by
  unfold Dispenser.NextArg
  rw [on_nextOnSameLine_cons]
  cases isNextOnNewLine c x
  · by_cases hx : x.Text = "\x7b"
    · have e : (Dispenser.on (f ++ [c]) x r n).cursor - 1 = (f.length : Int) := by
        simp [Dispenser.on]
      have ht : (Dispenser.on (f ++ [c]) x r n).tokens = f ++ c :: x :: r := by
        simp [Dispenser.on]
      simp only [Bool.not_false, Bool.false_eq_true, if_false, on_Val, hx, if_true, e, ht, on_nesting]
      rfl
    · simp [hx]
  · simp

@[simp] theorem NewDispenser_Next_nil : (NewDispenser []).Next = (false, NewDispenser []) := by
  simp [Dispenser.Next, NewDispenser]

@[simp] theorem NewDispenser_Next_cons (t : Token) (r : List Token) :
    (NewDispenser (t :: r)).Next = (true, Dispenser.on [] t r 0) := by
  have h : (-1 : Int) < (r.length : Int) := by omega
  simp [Dispenser.Next, NewDispenser, Dispenser.on, h]

@[simp] theorem NewDispenser_fuel (ts : List Token) : (NewDispenser ts).fuel = ts.length + 2 := by
  simp [Dispenser.fuel, NewDispenser]

theorem directiveLoop_succ (fuel : Nat) (p : Provider) (d : Dispenser) :
    directiveLoop (fuel + 1) p d =
      if (d.Next).1 then
        match (inlineArgs p (d.Next).2).2.2 with
        | some e => some ((inlineArgs p (d.Next).2).1, (inlineArgs p (d.Next).2).2.1, some e)
        | none =>
          match blockLoop (inlineArgs p (d.Next).2).2.1.Nesting fuel (inlineArgs p (d.Next).2).1
              (inlineArgs p (d.Next).2).2.1 with
          | none => none
          | some b =>
            match b.2.2 with
            | some e => some (b.1, b.2.1, some e)
            | none => directiveLoop fuel b.1 b.2.1
      else some (p, (d.Next).2, none) := rfl

theorem blockLoop_succ (nesting : Int) (fuel : Nat) (p : Provider) (d : Dispenser) :
    blockLoop nesting (fuel + 1) p d =
      if (d.NextBlock nesting).1 then
        match (subdirective p (d.NextBlock nesting).2).2.2 with
        | some e => some ((subdirective p (d.NextBlock nesting).2).1,
            (subdirective p (d.NextBlock nesting).2).2.1, some e)
        | none => blockLoop nesting fuel (subdirective p (d.NextBlock nesting).2).1
            (subdirective p (d.NextBlock nesting).2).2.1
      else some (p, (d.NextBlock nesting).2, none) := rfl

/-! ## Progress of the dispenser operations and totality of the parser -/

theorem Next_frame (d : Dispenser) :
    (d.Next).2.tokens = d.tokens ∧ d.cursor ≤ (d.Next).2.cursor ∧
      ((d.Next).1 = true → d.cursor < (d.Next).2.cursor ∧ d.cursor < d.tokens.length) := by
  unfold Dispenser.Next
  split
  · simp; omega
  · simp

theorem nextOnSameLine_frame (d : Dispenser) :
    (d.nextOnSameLine).2.tokens = d.tokens ∧ d.cursor ≤ (d.nextOnSameLine).2.cursor ∧
      ((d.nextOnSameLine).1 = true →
        d.cursor < (d.nextOnSameLine).2.cursor ∧ d.cursor < d.tokens.length) := by
  unfold Dispenser.nextOnSameLine
  split
  · simp; omega
  · split
    · simp
    · split
      · simp; omega
      · simp

theorem NextArg_frame (d : Dispenser) :
    (d.NextArg).2.tokens = d.tokens ∧ d.cursor ≤ (d.NextArg).2.cursor := by
  have h := nextOnSameLine_frame d
  unfold Dispenser.NextArg
  simp only
  split
  · exact ⟨h.1, h.2.1⟩
  · have h3 := h.2.2 (by simpa using ‹¬ (!(d.nextOnSameLine).1) = true›)
    split
    · simp; exact ⟨h.1, by omega⟩
    · exact ⟨h.1, h.2.1⟩

theorem bool_progress (b : Bool) (P : Prop) (h : b = true → P) : b = false ∨ (b = true ∧ P) := by
  cases b
  · exact Or.inl rfl
  · exact Or.inr ⟨rfl, h rfl⟩

theorem NextBlock_frame (d : Dispenser) (n : Int) :
    (d.NextBlock n).2.tokens = d.tokens ∧ d.cursor ≤ (d.NextBlock n).2.cursor ∧
      ((d.NextBlock n).1 = true →
        d.cursor < (d.NextBlock n).2.cursor ∧ d.cursor < d.tokens.length) := by
  obtain ⟨a1, a2, a3⟩ := Next_frame d
  obtain ⟨b1, b2, b3⟩ := nextOnSameLine_frame d
  obtain ⟨c1, c2, c3⟩ := nextOnSameLine_frame (d.Next).2
  obtain ⟨e1, e2, e3⟩ := nextOnSameLine_frame ((d.Next).2.nextOnSameLine).2
  obtain ⟨g1, g2, g3⟩ := Next_frame (d.nextOnSameLine).2
  have a4 := bool_progress _ _ a3
  have b4 := bool_progress _ _ b3
  have c4 := bool_progress _ _ c3
  have e4 := bool_progress _ _ e3
  unfold Dispenser.NextBlock
  simp only
  rw [a1] at c4
  rw [c1, a1] at e4
  rcases a4 with ha | ⟨ha, ha2⟩ <;> rcases b4 with hb | ⟨hb, hb2⟩ <;>
    rcases c4 with hc | ⟨hc, hc2⟩ <;> rcases e4 with he | ⟨he, he2⟩ <;>
    simp only [ha, hb, hc, he, Bool.not_false, Bool.not_true, if_true, Bool.false_eq_true,
      if_false] <;>
    split_ifs <;>
    (dsimp only; refine ⟨by simp only [a1, b1, c1, e1, g1], by omega,
      fun h => by first | exact False.elim h | exact absurd h Bool.false_ne_true | omega⟩)

theorem noExtraArgs_frame (p : Provider) (d : Dispenser) :
    (noExtraArgs p d).2.1.tokens = d.tokens ∧ d.cursor ≤ (noExtraArgs p d).2.1.cursor := by
  have h := NextArg_frame d
  unfold noExtraArgs
  simp only
  split <;> exact h

theorem subdirective_frame (p : Provider) (d : Dispenser) :
    (subdirective p d).2.1.tokens = d.tokens ∧ d.cursor ≤ (subdirective p d).2.1.cursor := by
  have h := NextArg_frame d
  have h2 := fun q => noExtraArgs_frame q (d.NextArg).2
  unfold subdirective
  simp only
  split_ifs <;>
    first
      | exact ⟨rfl, le_refl _⟩
      | exact h
      | exact ⟨(h2 _).1.trans h.1, h.2.trans (h2 _).2⟩

theorem inlineArgs_frame (p : Provider) (d : Dispenser) :
    (inlineArgs p d).2.1.tokens = d.tokens ∧ d.cursor ≤ (inlineArgs p d).2.1.cursor := by
  have h1 := NextArg_frame d
  have h2 := NextArg_frame (d.NextArg).2
  have h3 := NextArg_frame ((d.NextArg).2.NextArg).2
  unfold inlineArgs
  simp only
  split <;> exact ⟨h3.1.trans (h2.1.trans h1.1), h1.2.trans (h2.2.trans h3.2)⟩

theorem ahead_mono (d d2 : Dispenser) (ht : d2.tokens = d.tokens) (hc : d.cursor ≤ d2.cursor) :
    d2.ahead ≤ d.ahead := by
  unfold Dispenser.ahead; rw [ht]; omega

theorem ahead_lt (d d2 : Dispenser) (ht : d2.tokens = d.tokens) (hc : d.cursor < d2.cursor)
    (hl : d.cursor < d.tokens.length) : d2.ahead < d.ahead := by
  unfold Dispenser.ahead; rw [ht]; omega

theorem blockLoop_total (nesting : Int) :
    ∀ (fuel : Nat) (p : Provider) (d : Dispenser), d.ahead < fuel →
      ∃ r, blockLoop nesting fuel p d = some r ∧ r.2.1.ahead ≤ d.ahead := by
  intro fuel
  induction fuel with
  | zero => intro p d h; omega
  | succ fuel ih =>
    intro p d h
    obtain ⟨n1, n2, n3⟩ := NextBlock_frame d nesting
    rw [blockLoop_succ]
    cases hb : (d.NextBlock nesting).1
    · simp only [Bool.false_eq_true, if_false]
      exact ⟨_, rfl, ahead_mono _ _ n1 n2⟩
    · simp only [if_true]
      obtain ⟨s1, s2⟩ := subdirective_frame p (d.NextBlock nesting).2
      have hlt := ahead_lt _ _ n1 (n3 hb).1 (n3 hb).2
      have hle := ahead_mono _ _ s1 s2
      cases he : (subdirective p (d.NextBlock nesting).2).2.2 with
      | some e => exact ⟨_, rfl, by dsimp only; omega⟩
      | none =>
        obtain ⟨r, hr, hr2⟩ := ih (subdirective p (d.NextBlock nesting).2).1
          (subdirective p (d.NextBlock nesting).2).2.1 (by omega)
        exact ⟨r, hr, by omega⟩

theorem directiveLoop_total :
    ∀ (fuel : Nat) (p : Provider) (d : Dispenser), d.ahead < fuel →
      ∃ r, directiveLoop fuel p d = some r := by
  intro fuel
  induction fuel with
  | zero => intro p d h; omega
  | succ fuel ih =>
    intro p d h
    obtain ⟨n1, n2, n3⟩ := Next_frame d
    rw [directiveLoop_succ]
    cases hb : (d.Next).1
    · simp only [Bool.false_eq_true, if_false]
      exact ⟨_, rfl⟩
    · simp only [if_true]
      obtain ⟨s1, s2⟩ := inlineArgs_frame p (d.Next).2
      have hlt := ahead_lt _ _ n1 (n3 hb).1 (n3 hb).2
      have hle := ahead_mono _ _ s1 s2
      cases he : (inlineArgs p (d.Next).2).2.2 with
      | some e => exact ⟨_, rfl⟩
      | none =>
        obtain ⟨r, hr, hr2⟩ := blockLoop_total (inlineArgs p (d.Next).2).2.1.Nesting fuel
          (inlineArgs p (d.Next).2).1 (inlineArgs p (d.Next).2).2.1 (by omega)
        rw [hr]
        dsimp only
        cases e2 : r.2.2 with
        | some e => exact ⟨_, rfl⟩
        | none => exact ih r.1 r.2.1 (by omega)

theorem UnmarshalCaddyfile_total (p : Provider) (d : Dispenser) :
    ∃ r, UnmarshalCaddyfile p d = some r := by
  obtain ⟨r, hr⟩ := directiveLoop_total d.fuel p d (by unfold Dispenser.fuel Dispenser.ahead; omega)
  unfold UnmarshalCaddyfile
  rw [hr]
  dsimp only
  cases e1 : r.2.2 with
  | some e => exact ⟨_, rfl⟩
  | none =>
    dsimp only
    split <;> exact ⟨_, rfl⟩

theorem on_NextBlock_out_nil (f : List Token) (c : Token) (n init : Int) (h : ¬ n > init) :
    (Dispenser.on f c [] n).NextBlock init = (false, Dispenser.on f c [] n) := by
  unfold Dispenser.NextBlock
  rw [if_neg (by simpa using h)]
  simp

theorem on_NextBlock_out_newline (f : List Token) (c x : Token) (r : List Token) (n init : Int)
    (h : ¬ n > init) (hl : isNextOnNewLine c x = true) :
    (Dispenser.on f c (x :: r) n).NextBlock init = (false, Dispenser.on f c (x :: r) n) := by
  unfold Dispenser.NextBlock
  rw [if_neg (by simpa using h)]
  simp [on_nextOnSameLine_cons, hl]

theorem on_NextBlock_in_nil (f : List Token) (c : Token) (n init : Int) (h : n > init) :
    (Dispenser.on f c [] n).NextBlock init = (false, Dispenser.on f c [] n) := by
  unfold Dispenser.NextBlock
  rw [if_pos (by simpa using h)]
  simp

theorem on_NextBlock_in_plain (f : List Token) (c x : Token) (r : List Token) (n init : Int)
    (h : n > init) (h1 : x.Text ≠ "\x7d") (h2 : x.Text ≠ "\x7b") :
    (Dispenser.on f c (x :: r) n).NextBlock init = (true, Dispenser.on (f ++ [c]) x r n) := by
  unfold Dispenser.NextBlock
  rw [if_pos (by simpa using h)]
  simp [h1, h2, h]

theorem on_NextBlock_in_close_nil (f : List Token) (c x : Token) (n init : Int)
    (h : n > init) (h1 : x.Text = "\x7d") :
    (Dispenser.on f c [x] n).NextBlock init =
      (decide (n - 1 > init), Dispenser.on (f ++ [c]) x [] (n - 1)) := by
  unfold Dispenser.NextBlock
  rw [if_pos (by simpa using h)]
  simp [h1]

theorem on_NextBlock_in_close_newline (f : List Token) (c x y : Token) (r : List Token)
    (n init : Int) (h : n > init) (h1 : x.Text = "\x7d") (hl : isNextOnNewLine x y = true) :
    (Dispenser.on f c (x :: y :: r) n).NextBlock init =
      (decide (n - 1 > init), Dispenser.on (f ++ [c]) x (y :: r) (n - 1)) := by
  unfold Dispenser.NextBlock
  rw [if_pos (by simpa using h)]
  simp [h1, on_nextOnSameLine_cons, hl]

theorem on_NextBlock_open (f : List Token) (c x y : Token) (r : List Token) (n init : Int)
    (h : ¬ n > init) (hl : isNextOnNewLine c x = false) (hx : x.Text = "\x7b")
    (hy : y.Text ≠ "\x7d") :
    (Dispenser.on f c (x :: y :: r) n).NextBlock init =
      (true, Dispenser.on (f ++ [c] ++ [x]) y r (n + 1)) := by
  unfold Dispenser.NextBlock
  rw [if_neg (by simpa using h)]
  simp [on_nextOnSameLine_cons, hl, hx, hy]

theorem on_NextBlock_open_close (f : List Token) (c x y : Token) (r : List Token)
    (n init : Int) (h : ¬ n > init) (hl : isNextOnNewLine c x = false) (hx : x.Text = "\x7b")
    (hy : y.Text = "\x7d") :
    (Dispenser.on f c (x :: y :: r) n).NextBlock init =
      (false, Dispenser.on (f ++ [c] ++ [x]) y r n) := by
  unfold Dispenser.NextBlock
  rw [if_neg (by simpa using h)]
  simp [on_nextOnSameLine_cons, hl, hx, hy]

theorem digit_le_nine (c : Char) (h : '0' ≤ c ∧ c ≤ '9') : c.toNat - '0'.toNat ≤ 9 := by
  have h2 : c.val.toNat ≤ ('9' : Char).val.toNat := h.2
  have e : ('9' : Char).val.toNat = 57 := rfl
  have e0 : ('0' : Char).toNat = 48 := rfl
  have e1 : c.toNat = c.val.toNat := rfl
  omega

theorem digitsVal_cons (c : Char) (cs : List Char) (n : Nat) :
    digitsVal (c :: cs) n = digitsVal cs (n * 10 + (c.toNat - '0'.toNat)) := rfl

theorem digitsVal_ge (cs : List Char) : ∀ n, n ≤ digitsVal cs n := by
  induction cs with
  | nil => intro n; exact le_refl _
  | cons c cs ih =>
    intro n
    rw [digitsVal_cons]
    have := ih (n * 10 + (c.toNat - '0'.toNat))
    omega

theorem digitsVal_lt (cs : List Char) (hd : ∀ x ∈ cs, ('0' ≤ x ∧ x ≤ '9')) :
    ∀ n, digitsVal cs n < (n + 1) * 10 ^ cs.length := by
  induction cs with
  | nil => intro n; simp [digitsVal]
  | cons c cs ih =>
    intro n
    rw [digitsVal_cons]
    have h9 := digit_le_nine c (hd c (List.mem_cons_self _ _))
    have := ih (fun x hx => hd x (List.mem_cons_of_mem _ hx)) (n * 10 + (c.toNat - '0'.toNat))
    have e : (n + 1) * 10 ^ (c :: cs).length = ((n + 1) * 10) * 10 ^ cs.length := by
      rw [List.length_cons, pow_succ]; ring
    rw [e]
    calc digitsVal cs (n * 10 + (c.toNat - '0'.toNat))
        < (n * 10 + (c.toNat - '0'.toNat) + 1) * 10 ^ cs.length := this
      _ ≤ ((n + 1) * 10) * 10 ^ cs.length := Nat.mul_le_mul_right _ (by omega)

theorem atoiFastLoop_eq (cs : List Char) :
    ∀ n, atoiFastLoop cs n =
      if ∀ x ∈ cs, ('0' ≤ x ∧ x ≤ '9') then some (digitsVal cs n) else none := by
  induction cs with
  | nil => intro n; simp [atoiFastLoop, digitsVal]
  | cons c cs ih =>
    intro n
    unfold atoiFastLoop
    by_cases hc : '0' ≤ c ∧ c ≤ '9'
    · rw [if_pos hc, ih, digitsVal_cons]
      simp [hc]
    · rw [if_neg hc]
      simp [hc]

theorem parseUintLoop_ok (cs : List Char) :
    ∀ n, n ≤ 2 ^ 64 - 1 → (∀ x ∈ cs, ('0' ≤ x ∧ x ≤ '9')) → digitsVal cs n ≤ 2 ^ 64 - 1 →
      parseUintLoop cs n = (digitsVal cs n, none) := by
  induction cs with
  | nil => intro n _ _ _; rfl
  | cons c cs ih =>
    intro n hn hd hv
    have hc := hd c (List.mem_cons_self _ _)
    rw [digitsVal_cons] at hv ⊢
    have hge := digitsVal_ge cs (n * 10 + (c.toNat - '0'.toNat))
    unfold parseUintLoop
    rw [if_pos hc, if_neg (by omega), if_neg (by omega)]
    exact ih _ (by omega) (fun x hx => hd x (List.mem_cons_of_mem _ hx)) hv

theorem parseUintLoop_range (cs : List Char) :
    ∀ n, (∀ x ∈ cs, ('0' ≤ x ∧ x ≤ '9')) → 2 ^ 64 - 1 < digitsVal cs n →
      parseUintLoop cs n = (2 ^ 64 - 1, some NumError.ErrRange) ∨ n > 2 ^ 64 - 1 := by
  induction cs with
  | nil => intro n _ hv; right; simpa [digitsVal] using hv
  | cons c cs ih =>
    intro n hd hv
    have hc := hd c (List.mem_cons_self _ _)
    rw [digitsVal_cons] at hv
    unfold parseUintLoop
    rw [if_pos hc]
    by_cases h1 : n ≥ (2 ^ 64 - 1) / 10 + 1
    · left; rw [if_pos h1]
    · rw [if_neg h1]
      by_cases h2 : n * 10 + (c.toNat - '0'.toNat) > 2 ^ 64 - 1
      · left; rw [if_pos h2]
      · rw [if_neg h2]
        rcases ih _ (fun x hx => hd x (List.mem_cons_of_mem _ hx)) hv with h | h
        · left; exact h
        · exact absurd h h2

theorem parseUintLoop_syntax (cs : List Char) :
    ∀ n, (¬ ∀ x ∈ cs, ('0' ≤ x ∧ x ≤ '9')) → (parseUintLoop cs n).2 ≠ none := by
  induction cs with
  | nil => intro n h; simp at h
  | cons c cs ih =>
    intro n h
    unfold parseUintLoop
    by_cases hc : '0' ≤ c ∧ c ≤ '9'
    · rw [if_pos hc]
      have h' : ¬ ∀ x ∈ cs, ('0' ≤ x ∧ x ≤ '9') := by
        intro hall; apply h; intro x hx
        rcases List.mem_cons.mp hx with rfl | hx
        · exact hc
        · exact hall x hx
      split
      · simp
      · split
        · simp
        · exact ih _ h'
    · rw [if_neg hc]; simp


theorem parseUintLoop_range_val (cs : List Char) :
    ∀ n, (parseUintLoop cs n).2 = some NumError.ErrRange → (parseUintLoop cs n).1 = 2 ^ 64 - 1 := by
  induction cs with
  | nil => intro n h; simp [parseUintLoop] at h
  | cons c cs ih =>
    intro n
    unfold parseUintLoop
    split
    · split
      · intro _; rfl
      · split
        · intro _; rfl
        · exact ih _
    · intro h; simp at h

theorem ParseInt_ok_iff (cs : List Char) (v : Int) :
    ParseInt cs = (v, none) ↔
      decimalValue cs = some v ∧ -(2 : Int) ^ 63 ≤ v ∧ v ≤ 2 ^ 63 - 1 := by
  cases cs with
  | nil => simp [ParseInt, decimalValue]
  | cons c rest =>
    simp only [ParseInt, decimalValue]
    generalize (if c = '+' ∨ c = '-' then rest else c :: rest) = body
    by_cases hgood : body ≠ [] ∧ ∀ x ∈ body, ('0' ≤ x ∧ x ≤ '9')
    · rw [if_pos hgood]
      by_cases hv : digitsVal body 0 ≤ 2 ^ 64 - 1
      · have hPU : ParseUint body = (digitsVal body 0, none) := by
          unfold ParseUint
          rw [if_neg hgood.1]
          exact parseUintLoop_ok body 0 (by norm_num) hgood.2 hv
        rw [hPU]
        by_cases hneg : c = '-'
        · simp only [hneg, intSize, decide_True, Bool.not_true, Bool.false_eq_true, false_and,
            if_false, true_and, if_true, reduceCtorEq, Option.some.injEq]
          split_ifs with h1
          · simp only [Prod.mk.injEq, reduceCtorEq, and_false, false_iff]
            rintro ⟨rfl, h2, _⟩
            omega
          · simp only [Prod.mk.injEq, and_true]
            constructor
            · rintro rfl; exact ⟨rfl, by omega, by omega⟩
            · rintro ⟨rfl, _⟩; rfl
        · simp only [hneg, intSize, decide_False, Bool.not_false, true_and, Bool.false_eq_true,
            false_and, if_false, reduceCtorEq, Option.some.injEq]
          split_ifs with h1
          · simp only [Prod.mk.injEq, reduceCtorEq, and_false, false_iff]
            rintro ⟨rfl, _, h2⟩
            omega
          · simp only [Prod.mk.injEq, and_true]
            constructor
            · rintro rfl; exact ⟨rfl, by omega, by omega⟩
            · rintro ⟨rfl, _⟩; rfl
      · have hPU : ParseUint body = (2 ^ 64 - 1, some NumError.ErrRange) := by
          unfold ParseUint
          rw [if_neg hgood.1]
          rcases parseUintLoop_range body 0 hgood.2 (by omega) with h | h
          · exact h
          · omega
        rw [hPU]
        by_cases hneg : c = '-'
        · simp only [hneg, intSize, decide_True, Bool.not_true, Bool.false_eq_true, false_and,
            if_false, true_and, if_true, reduceCtorEq, Option.some.injEq]
          norm_num
          constructor
          · rintro ⟨_, h⟩; exact absurd h (by simp)
          · rintro ⟨rfl, _, _⟩; omega
        · simp only [hneg, intSize, decide_False, Bool.not_false, true_and, Bool.false_eq_true,
            false_and, if_false, reduceCtorEq, Option.some.injEq]
          norm_num
          constructor
          · rintro ⟨_, h⟩; exact absurd h (by simp)
          · rintro ⟨rfl, _, _⟩; omega
    · rw [if_neg hgood]
      have hne : (ParseUint body).2 ≠ none := by
        unfold ParseUint
        by_cases hb : body = []
        · rw [if_pos hb]; simp
        · rw [if_neg hb]
          exact parseUintLoop_syntax body 0 (fun hall => hgood ⟨hb, hall⟩)
      have hval : (ParseUint body).2 = some NumError.ErrRange → (ParseUint body).1 = 2 ^ 64 - 1 := by
        unfold ParseUint
        by_cases hb : body = []
        · rw [if_pos hb]; simp
        · rw [if_neg hb]; exact parseUintLoop_range_val body 0
      generalize ParseUint body = r at hne hval
      obtain ⟨r1, r2⟩ := r
      cases r2 with
      | none => exact absurd rfl hne
      | some e =>
        cases e with
        | ErrSyntax => simp
        | ErrRange =>
          have := hval rfl
          simp only at this
          subst this
          by_cases hneg : c = '-' <;> simp [hneg, intSize]

theorem length_le_utf8ByteSize_go (cs : List Char) : cs.length ≤ String.utf8ByteSize.go cs := by
  induction cs with
  | nil => simp [String.utf8ByteSize.go]
  | cons c cs ih =>
    have := Char.utf8Size_pos c
    simp only [String.utf8ByteSize.go, List.length_cons]
    omega

theorem length_le_utf8ByteSize (s : String) : s.toList.length ≤ s.utf8ByteSize := by
  cases s with
  | mk cs => exact length_le_utf8ByteSize_go cs

/-- `Atoi` returns `v` without error exactly when the text is a base-10 integer (optional
sign, digits) whose value `v` lies in the 64-bit `int` range. -/
theorem Atoi_ok_iff (s : String) (v : Int) :
    Atoi s = (v, none) ↔
      decimalValue s.toList = some v ∧ -(2 : Int) ^ 63 ≤ v ∧ v ≤ 2 ^ 63 - 1 := by
  unfold Atoi
  by_cases hfast : 0 < s.utf8ByteSize ∧ s.utf8ByteSize < 19
  · rw [if_pos hfast]
    have hlen := length_le_utf8ByteSize s
    generalize s.toList = l at hlen
    cases l with
    | nil => simp [decimalValue]
    | cons c rest =>
      simp only [decimalValue]
      have hor : (c = '-' ∨ c = '+') ↔ (c = '+' ∨ c = '-') := or_comm
      simp only [hor]
      have hbl : (if c = '+' ∨ c = '-' then rest else c :: rest).length ≤ 18 := by
        split <;> simp only [List.length_cons] at hlen ⊢ <;> omega
      generalize (if c = '+' ∨ c = '-' then rest else c :: rest) = body at hbl
      by_cases hb : body = []
      · subst hb; simp
      · have hl1 : ¬ body.length < 1 := by
          cases body with
          | nil => exact absurd rfl hb
          | cons _ _ => simp
        rw [if_neg hl1, atoiFastLoop_eq]
        by_cases hd : ∀ x ∈ body, ('0' ≤ x ∧ x ≤ '9')
        · have hlt := digitsVal_lt body hd 0
          have hpow : 10 ^ body.length ≤ 10 ^ 18 := Nat.pow_le_pow_right (by norm_num) hbl
          have hsmall : digitsVal body 0 < 10 ^ 18 := by omega
          rw [if_pos hd, if_pos ⟨hb, hd⟩]
          by_cases hneg : c = '-'
          · simp only [hneg, if_true, Prod.mk.injEq, and_true, Option.some.injEq]
            constructor
            · rintro rfl; exact ⟨rfl, by omega, by omega⟩
            · rintro ⟨rfl, _⟩; rfl
          · simp only [hneg, if_false, Prod.mk.injEq, and_true, Option.some.injEq]
            constructor
            · rintro rfl; exact ⟨rfl, by omega, by omega⟩
            · rintro ⟨rfl, _⟩; rfl
        · rw [if_neg hd, if_neg (fun h => hd h.2)]
          simp
  · rw [if_neg hfast]
    exact ParseInt_ok_iff s.toList v

theorem Atoi_err_iff (s : String) :
    (Atoi s).2 ≠ none ↔
      ¬ ∃ v, decimalValue s.toList = some v ∧ -(2 : Int) ^ 63 ≤ v ∧ v ≤ 2 ^ 63 - 1 := by
  constructor
  · rintro h ⟨v, hv⟩
    have := (Atoi_ok_iff s v).mpr hv
    rw [this] at h
    exact h rfl
  · intro h hn
    apply h
    refine ⟨(Atoi s).1, (Atoi_ok_iff s _).mp ?_⟩
    rw [← hn]

theorem digitChar_digit (m : Nat) (h : m < 10) :
    ('0' ≤ Nat.digitChar m ∧ Nat.digitChar m ≤ '9') ∧
      (Nat.digitChar m).toNat - '0'.toNat = m := by
  interval_cases m <;> decide

theorem toDigitsCore_spec :
    ∀ (fuel n : Nat) (ds : List Char), n < fuel → (∀ x ∈ ds, ('0' ≤ x ∧ x ≤ '9')) →
      (∀ x ∈ Nat.toDigitsCore 10 fuel n ds, ('0' ≤ x ∧ x ≤ '9')) ∧
        Nat.toDigitsCore 10 fuel n ds ≠ [] ∧
        digitsVal (Nat.toDigitsCore 10 fuel n ds) 0 = digitsVal ds n := by
  intro fuel
  induction fuel with
  | zero => intro n ds h; omega
  | succ fuel ih =>
    intro n ds hf hds
    have hd := digitChar_digit (n % 10) (Nat.mod_lt _ (by norm_num))
    have hall : ∀ x ∈ Nat.digitChar (n % 10) :: ds, ('0' ≤ x ∧ x ≤ '9') := by
      intro x hx
      rcases List.mem_cons.mp hx with rfl | hx
      · exact hd.1
      · exact hds x hx
    unfold Nat.toDigitsCore
    simp only
    by_cases h0 : n / 10 = 0
    · rw [if_pos h0]
      refine ⟨hall, by simp, ?_⟩
      rw [digitsVal_cons, hd.2]
      congr 1
      omega
    · rw [if_neg h0]
      obtain ⟨i1, i2, i3⟩ := ih (n / 10) (Nat.digitChar (n % 10) :: ds) (by omega) hall
      refine ⟨i1, i2, ?_⟩
      rw [i3, digitsVal_cons, hd.2]
      congr 1
      omega

theorem decimalValue_repr (n : Nat) : decimalValue (toString n).toList = some (n : Int) := by
  have e : (toString n).toList = Nat.toDigitsCore 10 (n + 1) n [] := rfl
  obtain ⟨h1, h2, h3⟩ := toDigitsCore_spec (n + 1) n [] (by omega) (by simp)
  rw [e]
  generalize Nat.toDigitsCore 10 (n + 1) n [] = l at h1 h2 h3
  cases l with
  | nil => exact absurd rfl h2
  | cons c rest =>
    have hc := h1 c (List.mem_cons_self _ _)
    have hp : c ≠ '+' := by rintro rfl; exact absurd hc (by decide)
    have hm : c ≠ '-' := by rintro rfl; exact absurd hc (by decide)
    simp only [decimalValue, hp, hm, or_self, if_false]
    rw [if_pos ⟨by simp, h1⟩, h3]
    rfl

/-- A positive number that fits in `int`, written in decimal, is read back by `Atoi`. -/
theorem Atoi_repr (n : Nat) (h : n < 2 ^ 63) : Atoi (toString n) = ((n : Int), none) := by
  rw [Atoi_ok_iff]
  exact ⟨decimalValue_repr n, by omega, by omega⟩

/-! ## One sub-directive line, and a run of lines -/

theorem on_NextArg_lineEnds (f : List Token) (v : Token) (rest : List Token) (n : Int)
    (h : lineEnds v rest) : (Dispenser.on f v rest n).NextArg = (false, Dispenser.on f v rest n) := by
  cases rest with
  | nil => simp
  | cons y r =>
    have h' : isNextOnNewLine v y = true := h
    simp [on_NextArg_cons, h']

theorem on_NextArg_argsEnd (f : List Token) (c : Token) (rest : List Token) (n : Int)
    (h : argsEnd c rest) : (Dispenser.on f c rest n).NextArg = (false, Dispenser.on f c rest n) := by
  cases rest with
  | nil => simp
  | cons y r =>
    have h' : isNextOnNewLine c y = true ∨ y.Text = "\x7b" := h
    rcases h' with h' | h'
    · simp [on_NextArg_cons, h']
    · simp [on_NextArg_cons, h']

theorem on_noExtraArgs_lineEnds (p : Provider) (f : List Token) (v : Token) (rest : List Token)
    (n : Int) (h : lineEnds v rest) :
    noExtraArgs p (Dispenser.on f v rest n) = (p, Dispenser.on f v rest n, none) := by
  simp [noExtraArgs, on_NextArg_lineEnds f v rest n h]

theorem subOK_name (p : Provider) (name value : String) (h : subOK p name value) :
    name = "api_key" ∨ name = "api_secret" ∨ name = "api_url" ∨ name = "api_pagesize" ∨
      name = "api_timeout" := by
  rcases h.2 with h | h | h | h | h
  · exact Or.inl h.1
  · exact Or.inr (Or.inl h.1)
  · exact Or.inr (Or.inr (Or.inl h.1))
  · exact Or.inr (Or.inr (Or.inr (Or.inl h.1)))
  · exact Or.inr (Or.inr (Or.inr (Or.inr h.1)))

theorem subOK_not_brace (p : Provider) (name value : String) (h : subOK p name value) :
    name ≠ "\x7d" ∧ name ≠ "\x7b" := by
  rcases subOK_name p name value h with h | h | h | h | h <;> subst h <;> decide

theorem subdirective_line (p : Provider) (f : List Token) (a v : Token) (rest : List Token)
    (n : Int) (hsame : isNextOnNewLine a v = false) (hend : lineEnds v rest)
    (hok : subOK p a.Text v.Text) :
    subdirective p (Dispenser.on f a (v :: rest) n) =
      (applySub p a.Text v.Text, Dispenser.on (f ++ [a]) v rest n, none) := by
  have hv : v.Text ≠ "\x7b" := hok.1
  have hna : (Dispenser.on f a (v :: rest) n).NextArg = (true, Dispenser.on (f ++ [a]) v rest n) := by
    simp [on_NextArg_cons, hsame, hv]
  unfold subdirective
  rw [hna]
  simp only [on_Val, Bool.not_true, Bool.false_eq_true, if_false]
  rcases hok.2 with ⟨h1, h2⟩ | ⟨h1, h2⟩ | ⟨h1, h2⟩ | ⟨h1, h2, h3⟩ | ⟨h1, h2, h3⟩
  · simp [h1, h2, applySub, on_noExtraArgs_lineEnds _ _ _ _ _ hend]
  · simp [h1, h2, applySub, on_noExtraArgs_lineEnds _ _ _ _ _ hend]
  · simp [h1, h2, applySub, on_noExtraArgs_lineEnds _ _ _ _ _ hend]
  · have h3' : ¬ (Atoi v.Text).1 ≤ 0 := by omega
    simp [h1, h2, h3', applySub, on_noExtraArgs_lineEnds _ _ _ _ _ hend]
  · have h3' : ¬ (Atoi v.Text).1 ≤ 0 := by omega
    simp [h1, h2, h3', applySub, on_noExtraArgs_lineEnds _ _ _ _ _ hend]

theorem blockLoop_lines (init : Int) (rest : List Token) :
    ∀ (ls : List (Token × Token)) (fuel : Nat) (p : Provider) (f : List Token) (c : Token)
      (n : Int), n > init → Laid ls rest → linesOK p ls →
      blockLoop init (fuel + ls.length) p (Dispenser.on f c (lineTokens ls ++ rest) n) =
        blockLoop init fuel (applyLines p ls)
          ⟨f ++ c :: (lineTokens ls ++ rest), (f.length : Int) + 2 * ls.length, n⟩ := by
  intro ls
  induction ls with
  | nil =>
    intro fuel p f c n _ _ _
    simp [applyLines, lineTokens, Dispenser.on]
  | cons l ls ih =>
    intro fuel p f c n hn hlaid hok
    obtain ⟨hsame, hend, hlaid'⟩ := hlaid
    obtain ⟨hok1, hok'⟩ := hok
    have hb := subOK_not_brace _ _ _ hok1
    have e : fuel + (l :: ls).length = (fuel + ls.length) + 1 := by simp; omega
    rw [e, blockLoop_succ]
    simp only [lineTokens, List.cons_append]
    rw [on_NextBlock_in_plain f c l.1 _ n init hn hb.1 hb.2]
    simp only [if_true]
    rw [subdirective_line p (f ++ [c]) l.1 l.2 _ n hsame hend hok1]
    simp only
    rw [ih fuel _ (f ++ [c] ++ [l.1]) l.2 n hn hlaid' hok']
    simp only [applyLines, List.foldl_cons]
    congr 1
    simp only [List.append_assoc, List.cons_append, List.nil_append, List.length_append,
      List.length_cons, List.length_nil, Dispenser.mk.injEq, and_true, true_and]
    push_cast
    ring

theorem on_advance (rest : List Token) (n : Int) :
    ∀ (ts : List Token) (f : List Token) (c : Token),
      ∃ f2 c2, f2 ++ [c2] = f ++ c :: ts ∧
        (⟨f ++ c :: (ts ++ rest), (f.length : Int) + ts.length, n⟩ : Dispenser) =
          Dispenser.on f2 c2 rest n := by
  intro ts
  induction ts with
  | nil => intro f c; exact ⟨f, c, by simp, by simp [Dispenser.on]⟩
  | cons t ts ih =>
    intro f c
    obtain ⟨f2, c2, h1, h2⟩ := ih (f ++ [c]) t
    refine ⟨f2, c2, by simpa using h1, ?_⟩
    rw [← h2]
    simp only [List.append_assoc, List.cons_append, List.nil_append, List.length_append,
      List.length_cons, List.length_nil, Dispenser.mk.injEq, and_true, true_and]
    push_cast
    ring

theorem lineTokens_length (ls : List (Token × Token)) : (lineTokens ls).length = 2 * ls.length := by
  induction ls with
  | nil => rfl
  | cons l ls ih => simp only [lineTokens, List.length_cons, ih]; omega

theorem blockLoop_close (init : Int) (fuel : Nat) (p : Provider) (f : List Token)
    (c closeTok : Token) (hc : closeTok.Text = "\x7d") :
    blockLoop init (fuel + 1) p (Dispenser.on f c [closeTok] (init + 1)) =
      some (p, Dispenser.on (f ++ [c]) closeTok [] init, none) := by
  rw [blockLoop_succ, on_NextBlock_in_close_nil f c closeTok (init + 1) init (by omega) hc]
  simp

theorem inlineArgs_none (p : Provider) (f : List Token) (nameTok openTok : Token)
    (rest : List Token) (n : Int) (hsame : isNextOnNewLine nameTok openTok = false)
    (hopen : openTok.Text = "\x7b") :
    inlineArgs p (Dispenser.on f nameTok (openTok :: rest) n) =
      (p, Dispenser.on f nameTok (openTok :: rest) n, none) := by
  simp [inlineArgs, on_NextArg_cons, hsame, hopen]

theorem blockLoop_block (p : Provider) (f : List Token) (nameTok openTok closeTok : Token)
    (l : Token × Token) (ls : List (Token × Token)) (n : Int) (fuel : Nat)
    (hsame : isNextOnNewLine nameTok openTok = false) (hopen : openTok.Text = "\x7b")
    (hclose : closeTok.Text = "\x7d") (hlaid : Laid (l :: ls) [closeTok])
    (hok : linesOK p (l :: ls)) :
    blockLoop n (fuel + ls.length + 2) p
        (Dispenser.on f nameTok (openTok :: (lineTokens (l :: ls) ++ [closeTok])) n) =
      some (applyLines p (l :: ls),
        Dispenser.on (f ++ nameTok :: openTok :: lineTokens (l :: ls)) closeTok [] n, none) := by
  obtain ⟨hsame1, hend1, hlaid'⟩ := hlaid
  obtain ⟨hok1, hok'⟩ := hok
  have hb := subOK_not_brace _ _ _ hok1
  have e : fuel + ls.length + 2 = ((fuel + 1) + ls.length) + 1 := by omega
  rw [e, blockLoop_succ]
  simp only [lineTokens, List.cons_append]
  rw [on_NextBlock_open f nameTok openTok l.1 _ n n (by omega) hsame hopen hb.1]
  simp only [if_true]
  rw [subdirective_line p _ l.1 l.2 _ (n + 1) hsame1 hend1 hok1]
  simp only
  rw [blockLoop_lines n [closeTok] ls (fuel + 1) _ _ l.2 (n + 1) (by omega) hlaid' hok']
  obtain ⟨f2, c2, h1, h2⟩ := on_advance [closeTok] (n + 1) (lineTokens ls)
    (f ++ [nameTok] ++ [openTok] ++ [l.1]) l.2
  rw [lineTokens_length] at h2
  have e2 : ((2 * ls.length : Nat) : Int) = 2 * (ls.length : Int) := by push_cast; ring
  rw [e2] at h2
  rw [h2, blockLoop_close n fuel _ f2 c2 closeTok hclose, h1]
  simp [applyLines]

/-! ## A whole block of distinct, valid lines -/

theorem unmarshal_block (p : Provider) (nameTok openTok closeTok : Token)
    (l : Token × Token) (ls : List (Token × Token))
    (hsame : isNextOnNewLine nameTok openTok = false) (hopen : openTok.Text = "\x7b")
    (hclose : closeTok.Text = "\x7d") (hlaid : Laid (l :: ls) [closeTok])
    (hok : linesOK p (l :: ls)) :
    UnmarshalCaddyfile p
        (NewDispenser (nameTok :: openTok :: (lineTokens (l :: ls) ++ [closeTok]))) =
      some (applyLines p (l :: ls),
        Dispenser.on (nameTok :: openTok :: lineTokens (l :: ls)) closeTok [] 0,
        if (applyLines p (l :: ls)).APIKey = "" ∨ (applyLines p (l :: ls)).APISecret = "" then
          some ⟨"missing api_key or api_secret", closeTok.File, closeTok.Line, closeTok.imports⟩
        else none) := by
  have hb := blockLoop_block p [] nameTok openTok closeTok l ls 0
    (ls.length + 4) hsame hopen hclose hlaid hok
  have hfuel : (NewDispenser (nameTok :: openTok :: (lineTokens (l :: ls) ++ [closeTok]))).fuel =
      (ls.length + 4 + ls.length + 2) + 1 := by
    rw [NewDispenser_fuel]
    simp only [List.length_cons, List.length_append, List.length_nil, lineTokens_length]
    omega
  unfold UnmarshalCaddyfile
  rw [hfuel, directiveLoop_succ, NewDispenser_Next_cons]
  simp only [if_true]
  rw [inlineArgs_none p [] nameTok openTok _ 0 hsame hopen]
  simp only [on_Nesting]
  rw [hb]
  simp only [List.nil_append]
  have e : ls.length + 4 + ls.length + 2 = (ls.length + 4 + ls.length + 1) + 1 := by omega
  rw [e, directiveLoop_succ, on_Next_nil]
  simp only [Bool.false_eq_true, if_false, on_Err]
  split <;> rfl

theorem applySub_APIKey (p : Provider) (name value : String) (h : name ≠ "api_key") :
    (applySub p name value).APIKey = p.APIKey := by
  unfold applySub
  rw [if_neg h]
  split_ifs <;> rfl

theorem applySub_APISecret (p : Provider) (name value : String) (h : name ≠ "api_secret") :
    (applySub p name value).APISecret = p.APISecret := by
  unfold applySub
  rw [if_neg h]
  split_ifs <;> rfl

theorem applySub_BaseURL (p : Provider) (name value : String) (h : name ≠ "api_url") :
    (applySub p name value).BaseURL = p.BaseURL := by
  unfold applySub
  rw [if_neg h]
  split_ifs <;> rfl

theorem linesOK_of_nodup :
    ∀ (ls : List (Token × Token)) (p : Provider),
      (ls.map fun l => l.1.Text).Nodup →
      (∀ l ∈ ls, valueOK l.1.Text l.2.Text) →
      ("api_key" ∈ (ls.map fun l => l.1.Text) → p.APIKey = "") →
      ("api_secret" ∈ (ls.map fun l => l.1.Text) → p.APISecret = "") →
      ("api_url" ∈ (ls.map fun l => l.1.Text) → p.BaseURL = "") →
      linesOK p ls := by
  intro ls
  induction ls with
  | nil => intro p _ _ _ _ _; trivial
  | cons l ls ih =>
    intro p hnd hval hk hs hu
    rw [List.map_cons, List.nodup_cons] at hnd
    have hv := hval l (List.mem_cons_self _ _)
    refine ⟨⟨hv.1, ?_⟩, ih _ hnd.2 (fun x hx => hval x (List.mem_cons_of_mem _ hx)) ?_ ?_ ?_⟩
    · rcases hv.2 with h | h | h | ⟨h | h, h2⟩
      · exact Or.inl ⟨h, hk (by simp [h])⟩
      · exact Or.inr (Or.inl ⟨h, hs (by simp [h])⟩)
      · exact Or.inr (Or.inr (Or.inl ⟨h, hu (by simp [h])⟩))
      · exact Or.inr (Or.inr (Or.inr (Or.inl ⟨h, h2⟩)))
      · exact Or.inr (Or.inr (Or.inr (Or.inr ⟨h, h2⟩)))
    · intro hm
      have hne : l.1.Text ≠ "api_key" := fun h => hnd.1 (h ▸ hm)
      rw [applySub_APIKey _ _ _ hne]
      exact hk (by simp [hm])
    · intro hm
      have hne : l.1.Text ≠ "api_secret" := fun h => hnd.1 (h ▸ hm)
      rw [applySub_APISecret _ _ _ hne]
      exact hs (by simp [hm])
    · intro hm
      have hne : l.1.Text ≠ "api_url" := fun h => hnd.1 (h ▸ hm)
      rw [applySub_BaseURL _ _ _ hne]
      exact hu (by simp [hm])

theorem wrap64_id (x : Int) (h0 : -(2 : Int) ^ 63 ≤ x) (h1 : x < 2 ^ 63) : wrap64 x = x := by
  unfold wrap64
  omega

theorem secondsToDuration_small (t : Int) (h0 : 0 ≤ t) (h1 : t ≤ 9223372036) :
    secondsToDuration t = t * 1000000000 := by
  unfold secondsToDuration Second
  exact wrap64_id _ (by omega) (by omega)

theorem repr_ne_brace (n : Nat) (h : n < 2 ^ 63) : toString n ≠ "\x7b" := by
  intro e
  have h1 := Atoi_repr n h
  rw [e] at h1
  have h2 : (Atoi "\x7b").2 = some NumError.ErrSyntax := by decide
  rw [h1] at h2
  exact absurd h2 (by simp)

theorem applySub_comm (z : Provider) (a v b w : String)
    (ha : a ∈ ["api_key", "api_secret", "api_pagesize", "api_timeout", "api_url"])
    (hb : b ∈ ["api_key", "api_secret", "api_pagesize", "api_timeout", "api_url"])
    (h : a ≠ b) :
    applySub (applySub z a v) b w = applySub (applySub z b w) a v := by
  simp only [List.mem_cons, List.mem_singleton, List.not_mem_nil, or_false] at ha hb
  rcases ha with rfl | rfl | rfl | rfl | rfl <;> rcases hb with rfl | rfl | rfl | rfl | rfl <;>
    first
      | exact absurd rfl h
      | rfl

theorem applyLines_map (p : Provider) (ls : List (Token × Token)) :
    applyLines p ls =
      (ls.map fun l => (l.1.Text, l.2.Text)).foldl (fun q t => applySub q t.1 t.2) p := by
  unfold applyLines
  rw [List.foldl_map]

/-! ## Reaching a sub-directive after a run of valid lines -/

theorem inlineArgs_on (p : Provider) (f : List Token) (c openTok : Token) (inl r : List Token)
    (n : Int) (hlen : inl.length ≤ 2) (hinl : InlineOK c inl openTok)
    (hopen : openTok.Text = "\x7b") :
    ∃ f2 c2, f2 ++ [c2] = f ++ c :: inl ∧ isNextOnNewLine c2 openTok = false ∧
      inlineArgs p (Dispenser.on f c (inl ++ openTok :: r) n) =
        (applyInline p inl, Dispenser.on f2 c2 (openTok :: r) n, none) := by
  match inl, hlen, hinl with
  | [], _, h =>
    have h0 : isNextOnNewLine c openTok = false := h
    exact ⟨f, c, by simp, h0, by simp [inlineArgs, on_NextArg_cons, h0, hopen, applyInline]⟩
  | [a], _, h =>
    obtain ⟨h1, h2, h3⟩ := h
    have h0 : isNextOnNewLine a openTok = false := h3
    exact ⟨f ++ [c], a, by simp, h0,
      by simp [inlineArgs, on_NextArg_cons, h0, h1, h2, hopen, applyInline]⟩
  | [a, b], _, h =>
    obtain ⟨h1, h2, h3, h4, h5⟩ := h
    have h0 : isNextOnNewLine b openTok = false := h5
    exact ⟨f ++ [c] ++ [a], b, by simp, h0,
      by simp [inlineArgs, on_NextArg_cons, h0, h1, h2, h3, h4, hopen, applyInline]⟩
  | _ :: _ :: _ :: _, hl, _ => exact absurd hl (by simp)

theorem blockLoop_reach (p : Provider) (f : List Token) (c openTok x : Token)
    (rest : List Token) (ls : List (Token × Token)) (n : Int) (fuel : Nat)
    (hsame : isNextOnNewLine c openTok = false) (hopen : openTok.Text = "\x7b")
    (hx1 : x.Text ≠ "\x7d") (hx2 : x.Text ≠ "\x7b") (hlaid : Laid ls (x :: rest))
    (hok : linesOK p ls) :
    blockLoop n (fuel + ls.length + 1) p
        (Dispenser.on f c (openTok :: (lineTokens ls ++ x :: rest)) n) =
      match (subdirective (applyLines p ls)
          (Dispenser.on (f ++ c :: openTok :: lineTokens ls) x rest (n + 1))).2.2 with
      | some e => some
          ((subdirective (applyLines p ls)
              (Dispenser.on (f ++ c :: openTok :: lineTokens ls) x rest (n + 1))).1,
            (subdirective (applyLines p ls)
              (Dispenser.on (f ++ c :: openTok :: lineTokens ls) x rest (n + 1))).2.1, some e)
      | none => blockLoop n fuel
          (subdirective (applyLines p ls)
            (Dispenser.on (f ++ c :: openTok :: lineTokens ls) x rest (n + 1))).1
          (subdirective (applyLines p ls)
            (Dispenser.on (f ++ c :: openTok :: lineTokens ls) x rest (n + 1))).2.1 := by
  cases ls with
  | nil =>
    simp only [List.length_nil, Nat.add_zero, lineTokens, List.nil_append, applyLines,
      List.foldl_nil]
    rw [blockLoop_succ, on_NextBlock_open f c openTok x rest n n (by omega) hsame hopen hx1]
    simp only [if_true]
    have e : f ++ [c] ++ [openTok] = f ++ [c, openTok] := by simp
    rw [e]
    try rfl
  | cons l ls =>
    obtain ⟨hsame1, hend1, hlaid'⟩ := hlaid
    obtain ⟨hok1, hok'⟩ := hok
    have hb := subOK_not_brace _ _ _ hok1
    have e : fuel + (l :: ls).length + 1 = ((fuel + 1) + ls.length) + 1 := by
      simp only [List.length_cons]; omega
    rw [e, blockLoop_succ]
    simp only [lineTokens, List.cons_append]
    rw [on_NextBlock_open f c openTok l.1 _ n n (by omega) hsame hopen hb.1]
    simp only [if_true]
    rw [subdirective_line p _ l.1 l.2 _ (n + 1) hsame1 hend1 hok1]
    simp only
    rw [blockLoop_lines n (x :: rest) ls (fuel + 1) _ _ l.2 (n + 1) (by omega) hlaid' hok']
    obtain ⟨f2, c2, h1, h2⟩ := on_advance (x :: rest) (n + 1) (lineTokens ls)
      (f ++ [c] ++ [openTok] ++ [l.1]) l.2
    rw [lineTokens_length] at h2
    have e2 : ((2 * ls.length : Nat) : Int) = 2 * (ls.length : Int) := by push_cast; ring
    rw [e2] at h2
    rw [h2, blockLoop_succ, on_NextBlock_in_plain f2 c2 x rest (n + 1) n (by omega) hx1 hx2, h1]
    simp only [if_true, applyLines, List.foldl_cons, List.append_assoc, List.cons_append,
      List.nil_append]
    try rfl

/-- The run of `UnmarshalCaddyfile` on a directive with up to two inline arguments and a block
that starts with valid lines `ls` reaches the token `x` after them with the provider those
lines built; an error of the switch on `x` is the result of the whole call. -/
theorem unmarshal_reach (p : Provider) (nameTok openTok x : Token) (inl rest : List Token)
    (ls : List (Token × Token)) (e : Error)
    (hlen : inl.length ≤ 2) (hinl : InlineOK nameTok inl openTok) (hopen : openTok.Text = "\x7b")
    (hx1 : x.Text ≠ "\x7d") (hx2 : x.Text ≠ "\x7b") (hlaid : Laid ls (x :: rest))
    (hok : linesOK (applyInline p inl) ls)
    (herr : (subdirective (applyLines (applyInline p inl) ls)
      (Dispenser.on (nameTok :: inl ++ openTok :: lineTokens ls) x rest 1)).2.2 = some e) :
    UnmarshalCaddyfile p
        (NewDispenser (nameTok :: inl ++ openTok :: (lineTokens ls ++ x :: rest))) =
      some ((subdirective (applyLines (applyInline p inl) ls)
          (Dispenser.on (nameTok :: inl ++ openTok :: lineTokens ls) x rest 1)).1,
        (subdirective (applyLines (applyInline p inl) ls)
          (Dispenser.on (nameTok :: inl ++ openTok :: lineTokens ls) x rest 1)).2.1, some e) := by
  obtain ⟨f2, c2, h1, hc2, h2⟩ := inlineArgs_on p [] nameTok openTok inl
    (lineTokens ls ++ x :: rest) 0 hlen hinl hopen
  have hb := blockLoop_reach (applyInline p inl) f2 c2 openTok x rest ls 0
    (ls.length + inl.length + rest.length + 3) hc2 hopen hx1 hx2 hlaid hok
  have hfront : f2 ++ c2 :: openTok :: lineTokens ls = nameTok :: inl ++ openTok :: lineTokens ls := by
    have : f2 ++ c2 :: openTok :: lineTokens ls = (f2 ++ [c2]) ++ openTok :: lineTokens ls := by
      simp
    rw [this, h1]; simp
  rw [hfront] at hb
  simp only [herr, zero_add] at hb
  have hfuel : (NewDispenser (nameTok :: inl ++ openTok :: (lineTokens ls ++ x :: rest))).fuel =
      (ls.length + inl.length + rest.length + 3 + ls.length + 1) + 1 := by
    rw [NewDispenser_fuel]
    simp only [List.length_cons, List.length_append, lineTokens_length]
    omega
  unfold UnmarshalCaddyfile
  rw [hfuel, directiveLoop_succ]
  have hN : (NewDispenser (nameTok :: inl ++ openTok :: (lineTokens ls ++ x :: rest))).Next =
      (true, Dispenser.on [] nameTok (inl ++ openTok :: (lineTokens ls ++ x :: rest)) 0) := by
    exact NewDispenser_Next_cons _ _
  rw [hN]
  simp only [if_true]
  rw [h2]
  simp only [on_Nesting]
  rw [hb]

/-! ## Further lemmas on the switch, on `Atoi` results and on `Provision` -/

theorem applyLines_APIKey (ls : List (Token × Token)) :
    ∀ p : Provider, (∀ m ∈ ls, m.1.Text ≠ "api_key") → (applyLines p ls).APIKey = p.APIKey := by
  induction ls with
  | nil => intro p _; rfl
  | cons l ls ih =>
    intro p h
    simp only [applyLines, List.foldl_cons]
    have := ih (applySub p l.1.Text l.2.Text) (fun m hm => h m (List.mem_cons_of_mem _ hm))
    simp only [applyLines] at this
    rw [this, applySub_APIKey _ _ _ (h l (List.mem_cons_self _ _))]

theorem applyLines_APISecret (ls : List (Token × Token)) :
    ∀ p : Provider, (∀ m ∈ ls, m.1.Text ≠ "api_secret") →
      (applyLines p ls).APISecret = p.APISecret := by
  induction ls with
  | nil => intro p _; rfl
  | cons l ls ih =>
    intro p h
    simp only [applyLines, List.foldl_cons]
    have := ih (applySub p l.1.Text l.2.Text) (fun m hm => h m (List.mem_cons_of_mem _ hm))
    simp only [applyLines] at this
    rw [this, applySub_APISecret _ _ _ (h l (List.mem_cons_self _ _))]

/-- The three duplicate checks of the switch, at any state of the block loop. -/
theorem subdirective_already_set (p : Provider) (d : Dispenser) :
    (d.Val = "api_key" → p.APIKey ≠ "" →
        subdirective p d = (p, d, some (d.Err "api_key already set"))) ∧
    (d.Val = "api_secret" → p.APISecret ≠ "" →
        subdirective p d = (p, d, some (d.Err "api_secret already set"))) ∧
    (d.Val = "api_url" → p.BaseURL ≠ "" →
        subdirective p d = (p, d, some (d.Err "api_url already set"))) := by
  refine ⟨fun h1 h2 => ?_, fun h1 h2 => ?_, fun h1 h2 => ?_⟩ <;>
    simp [subdirective, h1, h2]

theorem wrong_count_ne (v m : String) (hm : m.data.head? = some 'a') :
    "wrong argument count or unexpected line ending after '" ++ v ++ "'" ≠ m := by
  intro h
  have h1 := congrArg (fun s => s.data.head?) h
  simp only [String.data_append] at h1
  rw [hm] at h1
  simp at h1

theorem ArgErr_msg_ne (d : Dispenser) (m : String) (hm : m.data.head? = some 'a') :
    (d.ArgErr).msg ≠ m := by
  unfold Dispenser.ArgErr
  split
  · intro h
    have h1 : ("unexpected token '\x7b', expecting argument" : String) = m := h
    rw [← h1] at hm
    exact absurd hm (by decide)
  · exact wrong_count_ne _ _ hm

theorem Atoi_accept_iff (v : String) :
    ¬ ((Atoi v).2 ≠ none ∨ (Atoi v).1 ≤ 0) ↔ IsPositiveInt v := by
  constructor
  · intro h
    have h1 : (Atoi v).2 = none := by
      by_contra hc; exact h (Or.inl hc)
    have h2 : 0 < (Atoi v).1 := by
      by_contra hc; exact h (Or.inr (by omega))
    have h3 : Atoi v = ((Atoi v).1, none) := by rw [← h1]
    obtain ⟨a, b, c⟩ := (Atoi_ok_iff v _).mp h3
    exact ⟨_, a, b, c, h2⟩
  · rintro ⟨n, a, b, c, e⟩
    have h := (Atoi_ok_iff v n).mpr ⟨a, b, c⟩
    rw [h]
    simp only [ne_eq, not_true_eq_false, false_or, not_le]
    exact e

theorem Atoi_value (v : String) (n : Int) (h : decimalValue v.toList = some n)
    (hr : -(2 : Int) ^ 63 ≤ n ∧ n ≤ 2 ^ 63 - 1) : (Atoi v).1 = n := by
  rw [(Atoi_ok_iff v n).mpr ⟨h, hr.1, hr.2⟩]

/-- The value check of the two numeric cases, on its failing side. -/
theorem subdirective_value_rejected (p : Provider) (d : Dispenser)
    (harg : (d.NextArg).1 = true) (hn : ¬ IsPositiveInt (d.NextArg).2.Val) :
    (d.Val = "api_pagesize" →
      subdirective p d =
        (p, (d.NextArg).2, some ((d.NextArg).2.Err "api_pagesize must be a positive integer"))) ∧
    (d.Val = "api_timeout" →
      subdirective p d =
        (p, (d.NextArg).2,
          some ((d.NextArg).2.Err "api_timeout must be a positive integer (seconds)"))) := by
  have hb : (Atoi (d.NextArg).2.Val).2 ≠ none ∨ (Atoi (d.NextArg).2.Val).1 ≤ 0 := by
    by_contra hc; exact hn ((Atoi_accept_iff _).mp hc)
  constructor
  · intro hval
    simp only [subdirective, hval, harg]
    simp [hb]
  · intro hval
    simp only [subdirective, hval, harg]
    simp [hb]

/-- A rejected page size or timeout value ends the whole call: after up to two inline
arguments and a run of accepted lines, the line `x v` with `x` one of the two numeric names
and `v` not a positive `int` makes `UnmarshalCaddyfile` return the value error at `v`, the
provider being the one built before that line. -/
theorem value_rejected_run (p : Provider) (nameTok openTok x v : Token)
    (inl rest : List Token) (ls : List (Token × Token))
    (hlen : inl.length ≤ 2) (hinl : InlineOK nameTok inl openTok) (hopen : openTok.Text = "\x7b")
    (hlaid : Laid ls (x :: v :: rest)) (hok : linesOK (applyInline p inl) ls)
    (hxv : isNextOnNewLine x v = false) (hv : v.Text ≠ "\x7b") (hn : ¬ IsPositiveInt v.Text) :
    (x.Text = "api_pagesize" →
      UnmarshalCaddyfile p
          (NewDispenser (nameTok :: inl ++ openTok :: (lineTokens ls ++ x :: v :: rest))) =
        some (applyLines (applyInline p inl) ls,
          Dispenser.on ((nameTok :: inl ++ openTok :: lineTokens ls) ++ [x]) v rest 1,
          some ⟨"api_pagesize must be a positive integer", v.File, v.Line, v.imports⟩)) ∧
    (x.Text = "api_timeout" →
      UnmarshalCaddyfile p
          (NewDispenser (nameTok :: inl ++ openTok :: (lineTokens ls ++ x :: v :: rest))) =
        some (applyLines (applyInline p inl) ls,
          Dispenser.on ((nameTok :: inl ++ openTok :: lineTokens ls) ++ [x]) v rest 1,
          some ⟨"api_timeout must be a positive integer (seconds)", v.File, v.Line,
            v.imports⟩)) := by
  have hna : (Dispenser.on (nameTok :: inl ++ openTok :: lineTokens ls) x (v :: rest) 1).NextArg =
      (true, Dispenser.on ((nameTok :: inl ++ openTok :: lineTokens ls) ++ [x]) v rest 1) := by
    simp [on_NextArg_cons, hxv, hv]
  have key := subdirective_value_rejected (applyLines (applyInline p inl) ls)
    (Dispenser.on (nameTok :: inl ++ openTok :: lineTokens ls) x (v :: rest) 1)
    (by rw [hna]) (by rw [hna]; simpa using hn)
  rw [hna] at key
  simp only [on_Val, on_Err] at key
  constructor
  · intro h1
    have hs := key.1 h1
    have := unmarshal_reach p nameTok openTok x inl (v :: rest) ls _ hlen hinl hopen
      (by rw [h1]; decide) (by rw [h1]; decide) hlaid hok (by rw [hs])
    rw [this, hs]
  · intro h1
    have hs := key.2 h1
    have := unmarshal_reach p nameTok openTok x inl (v :: rest) ls _ hlen hinl hopen
      (by rw [h1]; decide) (by rw [h1]; decide) hlaid hok (by rw [hs])
    rw [this, hs]

theorem defaultTimeout_fields (p : Provider) :
    (defaultTimeout p).APIKey = p.APIKey ∧ (defaultTimeout p).APISecret = p.APISecret ∧
      (defaultTimeout p).BaseURL = p.BaseURL ∧ (defaultTimeout p).PageSize = p.PageSize := by
  unfold defaultTimeout
  split
  · split <;> exact ⟨rfl, rfl, rfl, rfl⟩
  · exact ⟨rfl, rfl, rfl, rfl⟩

theorem Provision_fst (replaceAll : String → String) (populateFromEnv : Provider → Provider)
    (p : Provider) :
    (Provision replaceAll populateFromEnv p).1 =
      defaultTimeout (expandFields replaceAll (populateFromEnv (expandFields replaceAll p))) := by
  unfold Provision
  simp only
  split <;> rfl

theorem Provision_snd (replaceAll : String → String) (populateFromEnv : Provider → Provider)
    (p : Provider) :
    (Provision replaceAll populateFromEnv p).2 =
      if (expandFields replaceAll (populateFromEnv (expandFields replaceAll p))).APIKey = "" ∨
          (expandFields replaceAll (populateFromEnv (expandFields replaceAll p))).APISecret = ""
      then some credentialsRequired else none := by
  have hf := defaultTimeout_fields
    (expandFields replaceAll (populateFromEnv (expandFields replaceAll p)))
  unfold Provision
  simp only
  rw [hf.1, hf.2.1]
  split <;> rfl

/-! ## Claims about `UnmarshalCaddyfile` -/

/-- C1: inline form.  On a one-line token sequence `name k s` (the three tokens on one line,
`k` and `s` non-empty and not an opening brace) `UnmarshalCaddyfile` returns no error and
leaves `APIKey = k`, `APISecret = s`, every other field of the provider as it was. -/
theorem inline_form (p : Provider) (t0 t1 t2 : Token)
    (h01 : isNextOnNewLine t0 t1 = false) (h12 : isNextOnNewLine t1 t2 = false)
    (hk : t1.Text ≠ "") (hk2 : t1.Text ≠ "\x7b") (hs : t2.Text ≠ "") (hs2 : t2.Text ≠ "\x7b") :
    UnmarshalCaddyfile p (NewDispenser [t0, t1, t2]) =
      some ({ p with APIKey := t1.Text, APISecret := t2.Text },
        Dispenser.on [t0, t1] t2 [] 0, none) := by
  simp [UnmarshalCaddyfile, directiveLoop_succ, blockLoop_succ, inlineArgs, on_NextArg_cons,
    on_NextBlock_out_nil, h01, h12, hk, hk2, hs, hs2]

/-- Witness for C1: the stream of `TestUnmarshalCaddyfile_Inline`, from the empty provider. -/
theorem inline_form_witness :
    UnmarshalCaddyfile Provider.empty
        (NewDispenser [tok 1 "spaceship", tok 1 "key123", tok 1 "secret456"]) =
      some (⟨"key123", "secret456", "", 0, none⟩,
        Dispenser.on [tok 1 "spaceship", tok 1 "key123"] (tok 1 "secret456") [] 0, none) :=
  inline_form Provider.empty (tok 1 "spaceship") (tok 1 "key123") (tok 1 "secret456")
    (by decide) (by decide) (by decide) (by decide) (by decide) (by decide)

/-- Counterexample to C2 as stated: with the page size `9223372036854775808` (a positive
integer written in decimal, one past the largest `int`) the five-line block is rejected with
the page-size error and `PageSize` stays `0`. -/
theorem block_form_rejects_large_pagesize :
    (UnmarshalCaddyfile Provider.empty (NewDispenser
      [tok 1 "spaceship", tok 1 "\x7b",
       tok 2 "api_key", tok 2 "key123",
       tok 3 "api_secret", tok 3 "secret456",
       tok 4 "api_pagesize", tok 4 "9223372036854775808",
       tok 5 "api_timeout", tok 5 "15",
       tok 6 "api_url", tok 6 "https://example.test/api",
       tok 7 "\x7d"])).map (fun r => (r.1.PageSize, r.2.2)) =
      some (0, some ⟨"api_pagesize must be a positive integer", "Caddyfile", 4, []⟩) := by
  decide

/-- C2 (amended): block form.  The directive has no inline arguments and its block holds the
five lines `api_key k`, `api_secret s`, `api_pagesize n`, `api_timeout t`, `api_url u` once
each, in any order, `n` and `t` written in decimal.  If `k` and `s` are non-empty, none of
`k`, `s`, `u` is an opening brace, `0 < n < 2^63` and `0 < t ≤ 9223372036`, then
`UnmarshalCaddyfile` from the empty provider returns no error and leaves `APIKey = k`,
`APISecret = s`, `BaseURL = u`, `PageSize = n` and a fresh HTTP client whose `Timeout` is
`t` seconds. -/
theorem block_form (nameTok openTok closeTok : Token) (ls : List (Token × Token))
    (k s u : String) (n t : Nat)
    (hhead : isNextOnNewLine nameTok openTok = false) (hopen : openTok.Text = "\x7b")
    (hclose : closeTok.Text = "\x7d") (hlaid : Laid ls [closeTok])
    (hperm : (ls.map fun l => (l.1.Text, l.2.Text)).Perm
      [("api_key", k), ("api_secret", s), ("api_pagesize", toString n),
        ("api_timeout", toString t), ("api_url", u)])
    (hk : k ≠ "" ∧ k ≠ "\x7b") (hs : s ≠ "" ∧ s ≠ "\x7b") (hu : u ≠ "\x7b")
    (hn : 0 < n ∧ n < 2 ^ 63) (ht : 0 < t ∧ t ≤ 9223372036) :
    UnmarshalCaddyfile Provider.empty
        (NewDispenser (nameTok :: openTok :: (lineTokens ls ++ [closeTok]))) =
      some (⟨k, s, u, n, some ⟨(t : Int) * 1000000000, 0⟩⟩,
        Dispenser.on (nameTok :: openTok :: lineTokens ls) closeTok [] 0, none) := by
  have hAn := Atoi_repr n hn.2
  have hAt := Atoi_repr t (by omega)
  have hmem : ∀ l ∈ ls, (l.1.Text, l.2.Text) ∈
      [("api_key", k), ("api_secret", s), ("api_pagesize", toString n),
        ("api_timeout", toString t), ("api_url", u)] :=
    fun l hl => hperm.mem_iff.mp (List.mem_map_of_mem _ hl)
  have hval : ∀ l ∈ ls, valueOK l.1.Text l.2.Text := by
    intro l hl
    have h := hmem l hl
    simp only [List.mem_cons, Prod.mk.injEq, List.mem_singleton, List.not_mem_nil, or_false] at h
    rcases h with ⟨h1, h2⟩ | ⟨h1, h2⟩ | ⟨h1, h2⟩ | ⟨h1, h2⟩ | ⟨h1, h2⟩
    · exact ⟨h2 ▸ hk.2, Or.inl h1⟩
    · exact ⟨h2 ▸ hs.2, Or.inr (Or.inl h1)⟩
    · refine ⟨h2 ▸ repr_ne_brace n hn.2, Or.inr (Or.inr (Or.inr ⟨Or.inl h1, ?_⟩))⟩
      rw [h2, hAn]; exact ⟨rfl, by simpa using hn.1⟩
    · refine ⟨h2 ▸ repr_ne_brace t (by omega), Or.inr (Or.inr (Or.inr ⟨Or.inr h1, ?_⟩))⟩
      rw [h2, hAt]; exact ⟨rfl, by simpa using ht.1⟩
    · exact ⟨h2 ▸ hu, Or.inr (Or.inr (Or.inl h1))⟩
  have hnames : (ls.map fun l => l.1.Text).Perm
      ["api_key", "api_secret", "api_pagesize", "api_timeout", "api_url"] := by
    have := hperm.map Prod.fst
    simpa [List.map_map, Function.comp_def] using this
  have hnd : (ls.map fun l => l.1.Text).Nodup := hnames.nodup_iff.mpr (by decide)
  have hok : linesOK Provider.empty ls :=
    linesOK_of_nodup ls Provider.empty hnd hval (fun _ => rfl) (fun _ => rfl) (fun _ => rfl)
  have hres : applyLines Provider.empty ls =
      ⟨k, s, u, n, some ⟨(t : Int) * 1000000000, 0⟩⟩ := by
    rw [applyLines_map]
    rw [← hperm.symm.foldl_eq' _ Provider.empty]
    · have e : secondsToDuration (t : Int) = (t : Int) * 1000000000 :=
        secondsToDuration_small _ (by omega) (by omega)
      simp [applySub, Provider.empty, hAn, hAt, e]
    · intro x hx y hy z
      by_cases hxy : x = y
      · rw [hxy]
      · have hx1 : x.1 ∈ ["api_key", "api_secret", "api_pagesize", "api_timeout", "api_url"] := by
          have := List.mem_map_of_mem Prod.fst hx
          simpa using this
        have hy1 : y.1 ∈ ["api_key", "api_secret", "api_pagesize", "api_timeout", "api_url"] := by
          have := List.mem_map_of_mem Prod.fst hy
          simpa using this
        have hne : x.1 ≠ y.1 := by
          intro h1
          apply hxy
          simp only [List.mem_cons, List.mem_singleton, List.not_mem_nil, or_false] at hx hy
          rcases hx with rfl | rfl | rfl | rfl | rfl <;>
            rcases hy with rfl | rfl | rfl | rfl | rfl <;>
            first
              | rfl
              | (simp only at h1; exact absurd h1 (by decide))
        exact applySub_comm z x.1 x.2 y.1 y.2 hx1 hy1 hne
  cases ls with
  | nil => exact absurd hperm.length_eq (by simp)
  | cons l ls =>
    rw [unmarshal_block Provider.empty nameTok openTok closeTok l ls hhead hopen hclose hlaid hok,
      hres]
    simp [hk.1, hs.1]

/-- Witness for C2 (amended): the five lines of `TestUnmarshalCaddyfile_Block` in another
order. -/
theorem block_form_witness :
    UnmarshalCaddyfile Provider.empty (NewDispenser
      [tok 1 "spaceship", tok 1 "\x7b",
       tok 2 "api_url", tok 2 "https://example.test/api",
       tok 3 "api_timeout", tok 3 "15",
       tok 4 "api_secret", tok 4 "secret456",
       tok 5 "api_pagesize", tok 5 "250",
       tok 6 "api_key", tok 6 "key123",
       tok 7 "\x7d"]) =
      some (⟨"key123", "secret456", "https://example.test/api", 250,
          some ⟨15000000000, 0⟩⟩,
        Dispenser.on
          [tok 1 "spaceship", tok 1 "\x7b",
           tok 2 "api_url", tok 2 "https://example.test/api",
           tok 3 "api_timeout", tok 3 "15",
           tok 4 "api_secret", tok 4 "secret456",
           tok 5 "api_pagesize", tok 5 "250",
           tok 6 "api_key", tok 6 "key123"] (tok 7 "\x7d") [] 0, none) :=
  block_form (tok 1 "spaceship") (tok 1 "\x7b") (tok 7 "\x7d")
    [(tok 2 "api_url", tok 2 "https://example.test/api"), (tok 3 "api_timeout", tok 3 "15"),
     (tok 4 "api_secret", tok 4 "secret456"), (tok 5 "api_pagesize", tok 5 "250"),
     (tok 6 "api_key", tok 6 "key123")]
    "key123" "secret456" "https://example.test/api" 250 15
    (by decide) (by decide) (by decide) (by decide) (by decide)
    (by decide) (by decide) (by decide) (by decide) (by decide)

/-- C3: duplicate detection.  The directive carries up to two inline arguments `inl` and its
block starts with accepted lines `ls`; the next line starts with the token `x`.  If `x` is
`api_key`, `api_secret` or `api_url` and the corresponding field is non-empty at that point
(from the starting provider, an inline argument or an earlier line), `UnmarshalCaddyfile`
returns the `already set` error at `x` and the provider is the one built before `x`. -/
theorem duplicate_detection (p : Provider) (nameTok openTok x : Token) (inl rest : List Token)
    (ls : List (Token × Token))
    (hlen : inl.length ≤ 2) (hinl : InlineOK nameTok inl openTok) (hopen : openTok.Text = "\x7b")
    (hlaid : Laid ls (x :: rest)) (hok : linesOK (applyInline p inl) ls) :
    (x.Text = "api_key" → (applyLines (applyInline p inl) ls).APIKey ≠ "" →
      UnmarshalCaddyfile p
          (NewDispenser (nameTok :: inl ++ openTok :: (lineTokens ls ++ x :: rest))) =
        some (applyLines (applyInline p inl) ls,
          Dispenser.on (nameTok :: inl ++ openTok :: lineTokens ls) x rest 1,
          some ⟨"api_key already set", x.File, x.Line, x.imports⟩)) ∧
    (x.Text = "api_secret" → (applyLines (applyInline p inl) ls).APISecret ≠ "" →
      UnmarshalCaddyfile p
          (NewDispenser (nameTok :: inl ++ openTok :: (lineTokens ls ++ x :: rest))) =
        some (applyLines (applyInline p inl) ls,
          Dispenser.on (nameTok :: inl ++ openTok :: lineTokens ls) x rest 1,
          some ⟨"api_secret already set", x.File, x.Line, x.imports⟩)) ∧
    (x.Text = "api_url" → (applyLines (applyInline p inl) ls).BaseURL ≠ "" →
      UnmarshalCaddyfile p
          (NewDispenser (nameTok :: inl ++ openTok :: (lineTokens ls ++ x :: rest))) =
        some (applyLines (applyInline p inl) ls,
          Dispenser.on (nameTok :: inl ++ openTok :: lineTokens ls) x rest 1,
          some ⟨"api_url already set", x.File, x.Line, x.imports⟩)) := by
  have key := subdirective_already_set (applyLines (applyInline p inl) ls)
    (Dispenser.on (nameTok :: inl ++ openTok :: lineTokens ls) x rest 1)
  simp only [on_Val, on_Err] at key
  refine ⟨fun h1 h2 => ?_, fun h1 h2 => ?_, fun h1 h2 => ?_⟩
  · have hs := key.1 h1 h2
    have := unmarshal_reach p nameTok openTok x inl rest ls _ hlen hinl hopen
      (by rw [h1]; decide) (by rw [h1]; decide) hlaid hok (by rw [hs])
    rw [this, hs]
  · have hs := key.2.1 h1 h2
    have := unmarshal_reach p nameTok openTok x inl rest ls _ hlen hinl hopen
      (by rw [h1]; decide) (by rw [h1]; decide) hlaid hok (by rw [hs])
    rw [this, hs]
  · have hs := key.2.2 h1 h2
    have := unmarshal_reach p nameTok openTok x inl rest ls _ hlen hinl hopen
      (by rw [h1]; decide) (by rw [h1]; decide) hlaid hok (by rw [hs])
    rw [this, hs]

/-- Witness for C3: `TestUnmarshalCaddyfile_DuplicateKey`, the second `api_key` line is
rejected and `APIKey` stays `a`. -/
theorem duplicate_detection_witness :
    UnmarshalCaddyfile Provider.empty (NewDispenser
      [tok 1 "spaceship", tok 1 "\x7b", tok 2 "api_key", tok 2 "a", tok 3 "api_key", tok 3 "b",
       tok 4 "api_secret", tok 4 "s", tok 5 "\x7d"]) =
      some (⟨"a", "", "", 0, none⟩,
        Dispenser.on [tok 1 "spaceship", tok 1 "\x7b", tok 2 "api_key", tok 2 "a"] (tok 3 "api_key")
          [tok 3 "b", tok 4 "api_secret", tok 4 "s", tok 5 "\x7d"] 1,
        some ⟨"api_key already set", "Caddyfile", 3, []⟩) :=
  (duplicate_detection Provider.empty (tok 1 "spaceship") (tok 1 "\x7b") (tok 3 "api_key") []
    [tok 3 "b", tok 4 "api_secret", tok 4 "s", tok 5 "\x7d"] [(tok 2 "api_key", tok 2 "a")]
    (by decide) (by decide) (by decide) (by decide) (by decide)).1 (by decide) (by decide)

/-- C4: required credentials.  `UnmarshalCaddyfile` always returns; a result without error
has both credentials non-empty; when the loops end without error and a credential is still
empty the result is the `missing api_key or api_secret` error; in particular a directive
without arguments or block, and a block of accepted lines that lacks `api_key` or lacks
`api_secret`, give that error from the empty provider. -/
theorem required_credentials :
    (∀ (p : Provider) (d : Dispenser), ∃ r, UnmarshalCaddyfile p d = some r ∧
      (r.2.2 = none → r.1.APIKey ≠ "" ∧ r.1.APISecret ≠ "") ∧
      (∀ q, directiveLoop d.fuel p d = some q → q.2.2 = none →
        (q.1.APIKey = "" ∨ q.1.APISecret = "") →
        r = (q.1, q.2.1, some (q.2.1.Err "missing api_key or api_secret")))) ∧
    (∀ nameTok : Token, UnmarshalCaddyfile Provider.empty (NewDispenser [nameTok]) =
      some (Provider.empty, Dispenser.on [] nameTok [] 0,
        some ⟨"missing api_key or api_secret", nameTok.File, nameTok.Line, nameTok.imports⟩)) ∧
    (∀ (nameTok openTok closeTok : Token) (l : Token × Token) (ls : List (Token × Token)),
      isNextOnNewLine nameTok openTok = false → openTok.Text = "\x7b" → closeTok.Text = "\x7d" →
      Laid (l :: ls) [closeTok] → linesOK Provider.empty (l :: ls) →
      ((∀ m ∈ l :: ls, m.1.Text ≠ "api_key") ∨ (∀ m ∈ l :: ls, m.1.Text ≠ "api_secret")) →
      UnmarshalCaddyfile Provider.empty
          (NewDispenser (nameTok :: openTok :: (lineTokens (l :: ls) ++ [closeTok]))) =
        some (applyLines Provider.empty (l :: ls),
          Dispenser.on (nameTok :: openTok :: lineTokens (l :: ls)) closeTok [] 0,
          some ⟨"missing api_key or api_secret", closeTok.File, closeTok.Line,
            closeTok.imports⟩)) := by
  refine ⟨fun p d => ?_, fun nameTok => ?_, ?_⟩
  · obtain ⟨q, hq⟩ := directiveLoop_total d.fuel p d
      (by unfold Dispenser.fuel Dispenser.ahead; omega)
    unfold UnmarshalCaddyfile
    rw [hq]
    simp only
    cases he : q.2.2 with
    | some e =>
      refine ⟨_, rfl, fun h => absurd h (by simp), fun q2 h2 h3 _ => ?_⟩
      rw [Option.some.inj h2] at he
      rw [he] at h3
      exact absurd h3 (by simp)
    | none =>
      simp only
      by_cases hc : q.1.APIKey = "" ∨ q.1.APISecret = ""
      · rw [if_pos hc]
        refine ⟨_, rfl, fun h => absurd h (by simp), fun q2 h2 _ _ => ?_⟩
        rw [Option.some.inj h2]
      · rw [if_neg hc]
        refine ⟨_, rfl, fun _ => ⟨fun h => hc (Or.inl h), fun h => hc (Or.inr h)⟩,
          fun q2 h2 _ h4 => ?_⟩
        rw [← Option.some.inj h2] at h4
        exact absurd h4 hc
  · simp [UnmarshalCaddyfile, directiveLoop_succ, blockLoop_succ, inlineArgs,
      on_NextBlock_out_nil, Provider.empty]
  · intro nameTok openTok closeTok l ls hsame hopen hclose hlaid hok hno
    rw [unmarshal_block Provider.empty nameTok openTok closeTok l ls hsame hopen hclose hlaid hok]
    have hc : (applyLines Provider.empty (l :: ls)).APIKey = "" ∨
        (applyLines Provider.empty (l :: ls)).APISecret = "" := by
      rcases hno with h | h
      · exact Or.inl (by rw [applyLines_APIKey _ _ h]; rfl)
      · exact Or.inr (by rw [applyLines_APISecret _ _ h]; rfl)
    rw [if_pos hc]

/-- C5: value-format validation.  When the block loop is on `api_pagesize` (or `api_timeout`)
and the line carries a value argument `v`, the `must be a positive integer` error is returned
exactly when `v` is not a base-10 integer (optional sign, digits, within the `int` range)
greater than 0, and then the provider is left as it was; otherwise the value (for the timeout:
that many seconds) is stored and only the arity check remains. -/
theorem value_format_validation (p : Provider) (d : Dispenser)
    (harg : (d.NextArg).1 = true) :
    (d.Val = "api_pagesize" →
      ((subdirective p d).2.2 =
          some ((d.NextArg).2.Err "api_pagesize must be a positive integer") ↔
        ¬ IsPositiveInt (d.NextArg).2.Val) ∧
      (¬ IsPositiveInt (d.NextArg).2.Val →
        subdirective p d =
          (p, (d.NextArg).2, some ((d.NextArg).2.Err "api_pagesize must be a positive integer"))) ∧
      (∀ n : Int, decimalValue (d.NextArg).2.Val.toList = some n →
        -(2 : Int) ^ 63 ≤ n ∧ n ≤ 2 ^ 63 - 1 → 0 < n →
        subdirective p d = noExtraArgs { p with PageSize := n } (d.NextArg).2)) ∧
    (d.Val = "api_timeout" →
      ((subdirective p d).2.2 =
          some ((d.NextArg).2.Err "api_timeout must be a positive integer (seconds)") ↔
        ¬ IsPositiveInt (d.NextArg).2.Val) ∧
      (¬ IsPositiveInt (d.NextArg).2.Val →
        subdirective p d =
          (p, (d.NextArg).2,
            some ((d.NextArg).2.Err "api_timeout must be a positive integer (seconds)"))) ∧
      (∀ n : Int, decimalValue (d.NextArg).2.Val.toList = some n →
        -(2 : Int) ^ 63 ≤ n ∧ n ≤ 2 ^ 63 - 1 → 0 < n →
        subdirective p d =
          noExtraArgs
            { p with HTTPClient := some (withTimeout p.HTTPClient (secondsToDuration n)) }
            (d.NextArg).2)) := by
  have hacc := Atoi_accept_iff (d.NextArg).2.Val
  constructor
  · intro hval
    have hrej : ¬ IsPositiveInt (d.NextArg).2.Val →
        subdirective p d = (p, (d.NextArg).2,
          some ((d.NextArg).2.Err "api_pagesize must be a positive integer")) :=
      fun hn => (subdirective_value_rejected p d harg hn).1 hval
    have hok : ∀ n : Int, decimalValue (d.NextArg).2.Val.toList = some n →
        -(2 : Int) ^ 63 ≤ n ∧ n ≤ 2 ^ 63 - 1 → 0 < n →
        subdirective p d = noExtraArgs { p with PageSize := n } (d.NextArg).2 := by
      intro n h1 h2 h3
      have hb : ¬ ((Atoi (d.NextArg).2.Val).2 ≠ none ∨ (Atoi (d.NextArg).2.Val).1 ≤ 0) :=
        hacc.mpr ⟨n, h1, h2.1, h2.2, h3⟩
      have hv := Atoi_value _ n h1 h2
      have hnone : (Atoi (d.NextArg).2.Val).2 = none := by
        by_contra hc; exact hb (Or.inl hc)
      have hn0 : ¬ n ≤ 0 := by omega
      simp only [subdirective, hval, harg]
      simp [hnone, hv, hn0]
    refine ⟨⟨fun h hpos => ?_, fun hn => by rw [hrej hn]⟩, hrej, hok⟩
    obtain ⟨n, h1, h2, h3, h4⟩ := hpos
    rw [hok n h1 ⟨h2, h3⟩ h4] at h
    unfold noExtraArgs at h
    simp only at h
    split at h
    · have := congrArg Error.msg (Option.some.inj h)
      exact ArgErr_msg_ne _ "api_pagesize must be a positive integer" (by decide) this
    · exact absurd h (by simp)
  · intro hval
    have hrej : ¬ IsPositiveInt (d.NextArg).2.Val →
        subdirective p d = (p, (d.NextArg).2,
          some ((d.NextArg).2.Err "api_timeout must be a positive integer (seconds)")) :=
      fun hn => (subdirective_value_rejected p d harg hn).2 hval
    have hok : ∀ n : Int, decimalValue (d.NextArg).2.Val.toList = some n →
        -(2 : Int) ^ 63 ≤ n ∧ n ≤ 2 ^ 63 - 1 → 0 < n →
        subdirective p d =
          noExtraArgs
            { p with HTTPClient := some (withTimeout p.HTTPClient (secondsToDuration n)) }
            (d.NextArg).2 := by
      intro n h1 h2 h3
      have hb : ¬ ((Atoi (d.NextArg).2.Val).2 ≠ none ∨ (Atoi (d.NextArg).2.Val).1 ≤ 0) :=
        hacc.mpr ⟨n, h1, h2.1, h2.2, h3⟩
      have hv := Atoi_value _ n h1 h2
      have hnone : (Atoi (d.NextArg).2.Val).2 = none := by
        by_contra hc; exact hb (Or.inl hc)
      have hn0 : ¬ n ≤ 0 := by omega
      simp only [subdirective, hval, harg]
      simp [hnone, hv, hn0, withTimeout]
    refine ⟨⟨fun h hpos => ?_, fun hn => by rw [hrej hn]⟩, hrej, hok⟩
    obtain ⟨n, h1, h2, h3, h4⟩ := hpos
    rw [hok n h1 ⟨h2, h3⟩ h4] at h
    unfold noExtraArgs at h
    simp only at h
    split at h
    · have := congrArg Error.msg (Option.some.inj h)
      exact ArgErr_msg_ne _ "api_timeout must be a positive integer (seconds)" (by decide) this
    · exact absurd h (by simp)

/-- Witness for C5: on the line `api_pagesize 0` the value is rejected and the provider is
left as it was. -/
theorem value_format_validation_witness :
    ¬ IsPositiveInt "0" ∧
    subdirective Provider.empty
        (Dispenser.on [tok 1 "spaceship", tok 1 "\x7b"] (tok 2 "api_pagesize")
          [tok 2 "0", tok 3 "\x7d"] 1) =
      (Provider.empty,
        Dispenser.on [tok 1 "spaceship", tok 1 "\x7b", tok 2 "api_pagesize"] (tok 2 "0")
          [tok 3 "\x7d"] 1,
        some ⟨"api_pagesize must be a positive integer", "Caddyfile", 2, []⟩) :=
  ⟨by decide,
    ((value_format_validation Provider.empty
      (Dispenser.on [tok 1 "spaceship", tok 1 "\x7b"] (tok 2 "api_pagesize")
        [tok 2 "0", tok 3 "\x7d"] 1) (by decide)).1 (by decide)).2.1 (by decide)⟩

/-- C6 (code bug): the parser accepts `api_timeout 9223372037` and `api_timeout
36028797018963968`, but `time.Duration(secs) * time.Second` wraps around in 64 bits: the
stored `Timeout` is negative for the first value and zero for the second, not that many
seconds. -/
theorem timeout_overflow :
    (UnmarshalCaddyfile Provider.empty (NewDispenser
      [tok 1 "spaceship", tok 1 "k", tok 1 "s", tok 1 "\x7b",
       tok 2 "api_timeout", tok 2 "9223372037", tok 3 "\x7d"])).map
        (fun r => (r.1.HTTPClient, r.2.2)) =
      some (some ⟨-9223372036709551616, 0⟩, none) ∧
    (UnmarshalCaddyfile Provider.empty (NewDispenser
      [tok 1 "spaceship", tok 1 "k", tok 1 "s", tok 1 "\x7b",
       tok 2 "api_timeout", tok 2 "36028797018963968", tok 3 "\x7d"])).map
        (fun r => (r.1.HTTPClient, r.2.2)) =
      some (some ⟨0, 0⟩, none) := by
  constructor <;> decide

/-! ## Claims about `Provision` -/

/-- C7: the credential check of `Provision`.  The error `api_key and api_secret are required`
is returned exactly when `APIKey` or `APISecret` is empty after expansion, environment
fallback and re-expansion; no other error exists; without error both are non-empty. -/
theorem provision_credential_check (replaceAll : String → String)
    (populateFromEnv : Provider → Provider) (p : Provider) :
    ((Provision replaceAll populateFromEnv p).2 = some credentialsRequired ↔
      ((expandFields replaceAll (populateFromEnv (expandFields replaceAll p))).APIKey = "" ∨
        (expandFields replaceAll (populateFromEnv (expandFields replaceAll p))).APISecret = "")) ∧
    ((Provision replaceAll populateFromEnv p).2 = none ∨
      (Provision replaceAll populateFromEnv p).2 = some credentialsRequired) ∧
    ((Provision replaceAll populateFromEnv p).2 = none →
      (Provision replaceAll populateFromEnv p).1.APIKey ≠ "" ∧
        (Provision replaceAll populateFromEnv p).1.APISecret ≠ "") := by
  have hf := defaultTimeout_fields
    (expandFields replaceAll (populateFromEnv (expandFields replaceAll p)))
  rw [Provision_fst, Provision_snd, hf.1, hf.2.1]
  by_cases h : (expandFields replaceAll (populateFromEnv (expandFields replaceAll p))).APIKey = "" ∨
      (expandFields replaceAll (populateFromEnv (expandFields replaceAll p))).APISecret = ""
  · simp [h]
  · rw [if_neg h]
    push_neg at h
    simp [h.1, h.2]

/-- C8: placeholder resolution in `Provision`.  Each of `APIKey`, `APISecret`, `BaseURL` ends
as the expansion of the fallback's field on the expanded provider; and when the expander
resolves `APIKey` and `APISecret` to non-empty values it leaves unchanged, and the fallback
keeps non-empty credentials, `Provision` succeeds with exactly these values. -/
theorem provision_placeholders (replaceAll : String → String)
    (populateFromEnv : Provider → Provider) (p : Provider) :
    ((Provision replaceAll populateFromEnv p).1.APIKey =
        replaceAll (populateFromEnv (expandFields replaceAll p)).APIKey ∧
      (Provision replaceAll populateFromEnv p).1.APISecret =
        replaceAll (populateFromEnv (expandFields replaceAll p)).APISecret ∧
      (Provision replaceAll populateFromEnv p).1.BaseURL =
        replaceAll (populateFromEnv (expandFields replaceAll p)).BaseURL ∧
      (expandFields replaceAll p).APIKey = replaceAll p.APIKey ∧
      (expandFields replaceAll p).APISecret = replaceAll p.APISecret ∧
      (expandFields replaceAll p).BaseURL = replaceAll p.BaseURL) ∧
    (∀ vk vs : String, replaceAll p.APIKey = vk → replaceAll p.APISecret = vs →
      vk ≠ "" → vs ≠ "" → replaceAll vk = vk → replaceAll vs = vs →
      (∀ q : Provider, (q.APIKey ≠ "" → (populateFromEnv q).APIKey = q.APIKey) ∧
        (q.APISecret ≠ "" → (populateFromEnv q).APISecret = q.APISecret)) →
      (Provision replaceAll populateFromEnv p).2 = none ∧
        (Provision replaceAll populateFromEnv p).1.APIKey = vk ∧
        (Provision replaceAll populateFromEnv p).1.APISecret = vs) := by
  have hf := defaultTimeout_fields
    (expandFields replaceAll (populateFromEnv (expandFields replaceAll p)))
  have hgen : (Provision replaceAll populateFromEnv p).1.APIKey =
        replaceAll (populateFromEnv (expandFields replaceAll p)).APIKey ∧
      (Provision replaceAll populateFromEnv p).1.APISecret =
        replaceAll (populateFromEnv (expandFields replaceAll p)).APISecret ∧
      (Provision replaceAll populateFromEnv p).1.BaseURL =
        replaceAll (populateFromEnv (expandFields replaceAll p)).BaseURL := by
    rw [Provision_fst, hf.1, hf.2.1, hf.2.2.1]
    exact ⟨rfl, rfl, rfl⟩
  refine ⟨⟨hgen.1, hgen.2.1, hgen.2.2, rfl, rfl, rfl⟩, ?_⟩
  intro vk vs hk hs hk0 hs0 hkk hss henv
  have e1 : (expandFields replaceAll p).APIKey = vk := hk
  have e2 : (expandFields replaceAll p).APISecret = vs := hs
  have k1 : (Provision replaceAll populateFromEnv p).1.APIKey = vk := by
    rw [hgen.1, (henv _).1 (by rw [e1]; exact hk0), e1, hkk]
  have k2 : (Provision replaceAll populateFromEnv p).1.APISecret = vs := by
    rw [hgen.2.1, (henv _).2 (by rw [e2]; exact hs0), e2, hss]
  refine ⟨?_, k1, k2⟩
  rw [Provision_fst, hf.1] at k1
  rw [Provision_fst, hf.2.1] at k2
  rw [Provision_snd, k1, k2, if_neg (by simp [hk0, hs0])]

/-- Witness for C8: `TestProvision_EnvFallbackAndPlaceholders`, the two placeholders resolve
to `envkey` and `envsecret`. -/
theorem provision_placeholders_witness :
    (Provision
      (fun s => if s = "\x7benv.LIBDNS_SPACESHIP_APIKEY\x7d" then "envkey"
        else if s = "\x7benv.LIBDNS_SPACESHIP_APISECRET\x7d" then "envsecret" else s)
      (PopulateFromEnv ⟨"envkey", "envsecret", ""⟩)
      ⟨"\x7benv.LIBDNS_SPACESHIP_APIKEY\x7d", "\x7benv.LIBDNS_SPACESHIP_APISECRET\x7d", "", 0,
        none⟩).2 = none ∧
    (Provision
      (fun s => if s = "\x7benv.LIBDNS_SPACESHIP_APIKEY\x7d" then "envkey"
        else if s = "\x7benv.LIBDNS_SPACESHIP_APISECRET\x7d" then "envsecret" else s)
      (PopulateFromEnv ⟨"envkey", "envsecret", ""⟩)
      ⟨"\x7benv.LIBDNS_SPACESHIP_APIKEY\x7d", "\x7benv.LIBDNS_SPACESHIP_APISECRET\x7d", "", 0,
        none⟩).1.APIKey = "envkey" ∧
    (Provision
      (fun s => if s = "\x7benv.LIBDNS_SPACESHIP_APIKEY\x7d" then "envkey"
        else if s = "\x7benv.LIBDNS_SPACESHIP_APISECRET\x7d" then "envsecret" else s)
      (PopulateFromEnv ⟨"envkey", "envsecret", ""⟩)
      ⟨"\x7benv.LIBDNS_SPACESHIP_APIKEY\x7d", "\x7benv.LIBDNS_SPACESHIP_APISECRET\x7d", "", 0,
        none⟩).1.APISecret = "envsecret" :=
  (provision_placeholders _ _ _).2 "envkey" "envsecret" (by decide) (by decide) (by decide)
    (by decide) (by decide) (by decide)
    (fun q => ⟨fun h => by simp [PopulateFromEnv, h], fun h => by simp [PopulateFromEnv, h]⟩)

/-- C9: default HTTP timeout.  Provided the environment fallback leaves the HTTP client alone,
after `Provision` (with or without error) the client is absent if none was configured, has
`Timeout` 30 seconds if it was configured with `Timeout` 0, and is unchanged otherwise; a
client present after `Provision` never has `Timeout` 0. -/
theorem provision_default_timeout (replaceAll : String → String)
    (populateFromEnv : Provider → Provider) (p : Provider)
    (henv : ∀ q : Provider, (populateFromEnv q).HTTPClient = q.HTTPClient) :
    (p.HTTPClient = none → (Provision replaceAll populateFromEnv p).1.HTTPClient = none) ∧
    (∀ c : Client, p.HTTPClient = some c → c.Timeout = 0 →
      (Provision replaceAll populateFromEnv p).1.HTTPClient =
        some { c with Timeout := 30000000000 }) ∧
    (∀ c : Client, p.HTTPClient = some c → c.Timeout ≠ 0 →
      (Provision replaceAll populateFromEnv p).1.HTTPClient = some c) ∧
    (∀ c : Client, (Provision replaceAll populateFromEnv p).1.HTTPClient = some c →
      c.Timeout ≠ 0) := by
  have h3 : (expandFields replaceAll (populateFromEnv (expandFields replaceAll p))).HTTPClient =
      p.HTTPClient := by
    have e1 : (expandFields replaceAll p).HTTPClient = p.HTTPClient := rfl
    have e2 : (expandFields replaceAll (populateFromEnv (expandFields replaceAll p))).HTTPClient =
        (populateFromEnv (expandFields replaceAll p)).HTTPClient := rfl
    rw [e2, henv, e1]
  rw [Provision_fst]
  generalize expandFields replaceAll (populateFromEnv (expandFields replaceAll p)) = q at h3
  unfold defaultTimeout
  cases hp : p.HTTPClient with
  | none =>
    rw [hp] at h3
    simp [h3]
  | some c =>
    rw [hp] at h3
    simp only [h3]
    by_cases h0 : c.Timeout = 0
    · simp [h0, Second]
    · simp [h0, h3]

/-- Witness for C9: a client configured without timeout gets 30 seconds, here on a provider
without credentials, for which `Provision` fails. -/
theorem provision_default_timeout_witness :
    (Provision id (PopulateFromEnv ⟨"", "", ""⟩) ⟨"", "", "", 0, some ⟨0, 7⟩⟩).1.HTTPClient =
      some ⟨30000000000, 7⟩ :=
  (provision_default_timeout id (PopulateFromEnv ⟨"", "", ""⟩) ⟨"", "", "", 0, some ⟨0, 7⟩⟩
    (fun _ => rfl)).2.1 ⟨0, 7⟩ rfl rfl

/-! ## A further claim about `UnmarshalCaddyfile` -/

/-- C10: unrecognized sub-directive.  The directive carries up to two inline arguments and its
block starts with accepted lines `ls`; the next line starts with a token `x` that is none of
the five names (nor a brace).  Whatever the provider holds, `UnmarshalCaddyfile` returns the
`unrecognized subdirective` error naming `x`. -/
theorem unrecognized_subdirective (p : Provider) (nameTok openTok x : Token)
    (inl rest : List Token) (ls : List (Token × Token))
    (hlen : inl.length ≤ 2) (hinl : InlineOK nameTok inl openTok) (hopen : openTok.Text = "\x7b")
    (hlaid : Laid ls (x :: rest)) (hok : linesOK (applyInline p inl) ls)
    (hx1 : x.Text ≠ "\x7d") (hx2 : x.Text ≠ "\x7b")
    (hname : x.Text ≠ "api_key" ∧ x.Text ≠ "api_secret" ∧ x.Text ≠ "api_url" ∧
      x.Text ≠ "api_pagesize" ∧ x.Text ≠ "api_timeout") :
    UnmarshalCaddyfile p
        (NewDispenser (nameTok :: inl ++ openTok :: (lineTokens ls ++ x :: rest))) =
      some (applyLines (applyInline p inl) ls,
        Dispenser.on (nameTok :: inl ++ openTok :: lineTokens ls) x rest 1,
        some ⟨"unrecognized subdirective '" ++ x.Text ++ "'", x.File, x.Line, x.imports⟩) := by
  have hs : subdirective (applyLines (applyInline p inl) ls)
      (Dispenser.on (nameTok :: inl ++ openTok :: lineTokens ls) x rest 1) =
      (applyLines (applyInline p inl) ls,
        Dispenser.on (nameTok :: inl ++ openTok :: lineTokens ls) x rest 1,
        some ⟨"unrecognized subdirective '" ++ x.Text ++ "'", x.File, x.Line, x.imports⟩) := by
    simp [subdirective, hname.1, hname.2.1, hname.2.2.1, hname.2.2.2.1, hname.2.2.2.2]
  have := unmarshal_reach p nameTok openTok x inl rest ls _ hlen hinl hopen hx1 hx2 hlaid hok
    (by rw [hs])
  rw [this, hs]

/-- Witness for C10: `api_token` after two inline credentials and an accepted `api_url`
line. -/
theorem unrecognized_subdirective_witness :
    UnmarshalCaddyfile Provider.empty (NewDispenser
      [tok 1 "spaceship", tok 1 "k", tok 1 "s", tok 1 "\x7b", tok 2 "api_url", tok 2 "u",
       tok 3 "api_token", tok 3 "z", tok 4 "\x7d"]) =
      some (⟨"k", "s", "u", 0, none⟩,
        Dispenser.on [tok 1 "spaceship", tok 1 "k", tok 1 "s", tok 1 "\x7b", tok 2 "api_url",
          tok 2 "u"] (tok 3 "api_token") [tok 3 "z", tok 4 "\x7d"] 1,
        some ⟨"unrecognized subdirective 'api_token'", "Caddyfile", 3, []⟩) :=
  unrecognized_subdirective Provider.empty (tok 1 "spaceship") (tok 1 "\x7b") (tok 3 "api_token")
    [tok 1 "k", tok 1 "s"] [tok 3 "z", tok 4 "\x7d"] [(tok 2 "api_url", tok 2 "u")]
    (by decide) (by decide) (by decide) (by decide) (by decide) (by decide) (by decide)
    (by decide)

/-! ## Invariants of the two loops -/

theorem getD_mem_or (l : List Token) (z : Token) : ∀ i : Nat, i < l.length → l.getD i z ∈ l := by
  induction l with
  | nil => intro i h; simp at h
  | cons a l ih =>
    intro i h
    cases i with
    | zero => simp
    | succ i =>
      have := ih i (by simpa using h)
      simp only [List.getD_cons_succ]
      exact List.mem_cons_of_mem _ this

/-- The text under the cursor is empty or the text of one of the tokens. -/
theorem Val_mem (d : Dispenser) : d.Val = "" ∨ ∃ t ∈ d.tokens, t.Text = d.Val := by
  unfold Dispenser.Val
  split
  · exact Or.inl rfl
  · rename_i h
    push_neg at h
    right
    refine ⟨d.tokenAt d.cursor, ?_, rfl⟩
    unfold Dispenser.tokenAt
    rw [if_neg (by omega)]
    exact getD_mem_or _ _ _ (by omega)

theorem Val_ne_of_absent (d : Dispenser) (nm : String) (hnm : nm ≠ "")
    (h : ∀ t ∈ d.tokens, t.Text ≠ nm) : d.Val ≠ nm := by
  rcases Val_mem d with h0 | ⟨t, ht, hv⟩
  · rw [h0]; exact fun e => hnm e.symm
  · rw [← hv]; exact h t ht

theorem blockLoop_inv (init : Int) (T : List Token) (I : Provider → Prop)
    (hsub : ∀ (p : Provider) (d : Dispenser), d.tokens = T → I p → I (subdirective p d).1) :
    ∀ (fuel : Nat) (p : Provider) (d : Dispenser) (r : Step), d.tokens = T → I p →
      blockLoop init fuel p d = some r → I r.1 ∧ r.2.1.tokens = T := by
  intro fuel
  induction fuel with
  | zero =>
    intro p d r _ _ h
    have h0 : blockLoop init 0 p d = none := rfl
    rw [h0] at h
    exact Option.noConfusion h
  | succ fuel ih =>
    intro p d r hT hI h
    rw [blockLoop_succ] at h
    have hnb := (NextBlock_frame d init).1
    cases hb : (d.NextBlock init).1
    · rw [hb] at h
      simp only [Bool.false_eq_true, if_false, Option.some.injEq] at h
      rw [← h]
      exact ⟨hI, by rw [← hT]; exact hnb⟩
    · rw [hb] at h
      simp only [if_true] at h
      have hT1 : (d.NextBlock init).2.tokens = T := by rw [hnb, hT]
      have hs := hsub p _ hT1 hI
      have hst := (subdirective_frame p (d.NextBlock init).2).1
      cases he : (subdirective p (d.NextBlock init).2).2.2 with
      | some e =>
        rw [he] at h
        simp only [Option.some.injEq] at h
        rw [← h]
        exact ⟨hs, by rw [← hT1]; exact hst⟩
      | none =>
        rw [he] at h
        exact ih _ _ r (by rw [hst, hT1]) hs h

theorem directiveLoop_inv (T : List Token) (I : Provider → Prop)
    (hsub : ∀ (p : Provider) (d : Dispenser), d.tokens = T → I p → I (subdirective p d).1)
    (hin : ∀ (p : Provider) (d : Dispenser), d.tokens = T → I p → I (inlineArgs p d).1) :
    ∀ (fuel : Nat) (p : Provider) (d : Dispenser) (r : Step), d.tokens = T → I p →
      directiveLoop fuel p d = some r → I r.1 ∧ r.2.1.tokens = T := by
  intro fuel
  induction fuel with
  | zero =>
    intro p d r _ _ h
    have h0 : directiveLoop 0 p d = none := rfl
    rw [h0] at h
    exact Option.noConfusion h
  | succ fuel ih =>
    intro p d r hT hI h
    rw [directiveLoop_succ] at h
    have hn := (Next_frame d).1
    cases hb : (d.Next).1
    · rw [hb] at h
      simp only [Bool.false_eq_true, if_false, Option.some.injEq] at h
      rw [← h]
      exact ⟨hI, by rw [← hT]; exact hn⟩
    · rw [hb] at h
      simp only [if_true] at h
      have hT1 : (d.Next).2.tokens = T := by rw [hn, hT]
      have hi := hin p _ hT1 hI
      have hit := (inlineArgs_frame p (d.Next).2).1
      cases he : (inlineArgs p (d.Next).2).2.2 with
      | some e =>
        rw [he] at h
        simp only [Option.some.injEq] at h
        rw [← h]
        exact ⟨hi, by rw [← hT1]; exact hit⟩
      | none =>
        rw [he] at h
        simp only at h
        cases hbl : blockLoop (inlineArgs p (d.Next).2).2.1.Nesting fuel
            (inlineArgs p (d.Next).2).1 (inlineArgs p (d.Next).2).2.1 with
        | none => rw [hbl] at h; simp at h
        | some b =>
          rw [hbl] at h
          simp only at h
          obtain ⟨hbI, hbT⟩ := blockLoop_inv _ T I hsub fuel _ _ b (by rw [hit, hT1]) hi hbl
          cases hbe : b.2.2 with
          | some e =>
            rw [hbe] at h
            simp only [Option.some.injEq] at h
            rw [← h]
            exact ⟨hbI, hbT⟩
          | none =>
            rw [hbe] at h
            exact ih _ _ r hbT hbI h

theorem UnmarshalCaddyfile_inv (I : Provider → Prop) (p : Provider) (d : Dispenser) (r : Step)
    (hsub : ∀ (q : Provider) (e : Dispenser), e.tokens = d.tokens → I q →
      I (subdirective q e).1)
    (hin : ∀ (q : Provider) (e : Dispenser), e.tokens = d.tokens → I q → I (inlineArgs q e).1)
    (hI : I p) (h : UnmarshalCaddyfile p d = some r) : I r.1 := by
  unfold UnmarshalCaddyfile at h
  cases hd : directiveLoop d.fuel p d with
  | none => rw [hd] at h; simp at h
  | some b =>
    rw [hd] at h
    simp only at h
    have hb := (directiveLoop_inv d.tokens I hsub hin d.fuel p d b rfl hI hd).1
    cases hbe : b.2.2 with
    | some e =>
      rw [hbe] at h
      simp only [Option.some.injEq] at h
      rw [← h]; exact hb
    | none =>
      rw [hbe] at h
      simp only at h
      split at h <;> (simp only [Option.some.injEq] at h; rw [← h]; exact hb)

/-! ## What the inline arguments and the switch leave alone -/

theorem noExtraArgs_fst (p : Provider) (d : Dispenser) : (noExtraArgs p d).1 = p := by
  unfold noExtraArgs
  simp only
  split <;> rfl

theorem inlineArgs_fields (p : Provider) (d : Dispenser) :
    (inlineArgs p d).1.BaseURL = p.BaseURL ∧ (inlineArgs p d).1.PageSize = p.PageSize ∧
      (inlineArgs p d).1.HTTPClient = p.HTTPClient := by
  unfold inlineArgs
  simp only
  split <;> split <;> split <;> exact ⟨rfl, rfl, rfl⟩

theorem subdirective_PageSize (p : Provider) (d : Dispenser) (h : d.Val ≠ "api_pagesize") :
    (subdirective p d).1.PageSize = p.PageSize := by
  unfold subdirective
  simp only [h, if_false]
  split_ifs <;> simp only [noExtraArgs_fst]

theorem subdirective_HTTPClient (p : Provider) (d : Dispenser) (h : d.Val ≠ "api_timeout") :
    (subdirective p d).1.HTTPClient = p.HTTPClient := by
  unfold subdirective
  simp only [h, if_false]
  split_ifs <;> simp only [noExtraArgs_fst]

theorem subdirective_BaseURL (p : Provider) (d : Dispenser) (h : d.Val ≠ "api_url") :
    (subdirective p d).1.BaseURL = p.BaseURL := by
  unfold subdirective
  simp only [h, if_false]
  split_ifs <;> simp only [noExtraArgs_fst]

theorem subdirective_keeps_APIKey (p : Provider) (d : Dispenser) (h : p.APIKey ≠ "") :
    (subdirective p d).1.APIKey = p.APIKey := by
  unfold subdirective
  simp only [h, ne_eq, not_false_eq_true, if_true]
  split_ifs <;> simp only [noExtraArgs_fst]

theorem subdirective_keeps_APISecret (p : Provider) (d : Dispenser) (h : p.APISecret ≠ "") :
    (subdirective p d).1.APISecret = p.APISecret := by
  unfold subdirective
  simp only [h, ne_eq, not_false_eq_true, if_true]
  split_ifs <;> simp only [noExtraArgs_fst]

theorem subdirective_keeps_BaseURL (p : Provider) (d : Dispenser) (h : p.BaseURL ≠ "") :
    (subdirective p d).1.BaseURL = p.BaseURL := by
  unfold subdirective
  simp only [h, ne_eq, not_false_eq_true, if_true]
  split_ifs <;> simp only [noExtraArgs_fst]

/-! ## A whole block after inline arguments, and repeated numeric settings -/

theorem unmarshal_block_inline (p : Provider) (nameTok openTok closeTok : Token)
    (inl : List Token) (ls : List (Token × Token))
    (hlen : inl.length ≤ 2) (hinl : InlineOK nameTok inl openTok) (hopen : openTok.Text = "\x7b")
    (hclose : closeTok.Text = "\x7d") (hne : ls ≠ []) (hlaid : Laid ls [closeTok])
    (hok : linesOK (applyInline p inl) ls) :
    UnmarshalCaddyfile p
        (NewDispenser (nameTok :: inl ++ openTok :: (lineTokens ls ++ [closeTok]))) =
      some (applyLines (applyInline p inl) ls,
        Dispenser.on (nameTok :: inl ++ openTok :: lineTokens ls) closeTok [] 0,
        if (applyLines (applyInline p inl) ls).APIKey = "" ∨
            (applyLines (applyInline p inl) ls).APISecret = "" then
          some ⟨"missing api_key or api_secret", closeTok.File, closeTok.Line, closeTok.imports⟩
        else none) := by
  cases ls with
  | nil => exact absurd rfl hne
  | cons l ls =>
    obtain ⟨f2, c2, h1, hc2, h2⟩ := inlineArgs_on p [] nameTok openTok inl
      (lineTokens (l :: ls) ++ [closeTok]) 0 hlen hinl hopen
    have hb := blockLoop_block (applyInline p inl) f2 c2 openTok closeTok l ls 0
      (ls.length + inl.length + 4) hc2 hopen hclose hlaid hok
    have hfront : f2 ++ c2 :: openTok :: lineTokens (l :: ls) =
        nameTok :: inl ++ openTok :: lineTokens (l :: ls) := by
      have : f2 ++ c2 :: openTok :: lineTokens (l :: ls) =
          (f2 ++ [c2]) ++ openTok :: lineTokens (l :: ls) := by simp
      rw [this, h1]; simp
    rw [hfront] at hb
    have hfuel : (NewDispenser (nameTok :: inl ++ openTok ::
        (lineTokens (l :: ls) ++ [closeTok]))).fuel =
        (ls.length + inl.length + 4 + ls.length + 2) + 1 := by
      rw [NewDispenser_fuel]
      simp only [List.length_cons, List.length_append, lineTokens_length, List.length_nil]
      omega
    have hN : (NewDispenser (nameTok :: inl ++ openTok ::
        (lineTokens (l :: ls) ++ [closeTok]))).Next =
        (true, Dispenser.on [] nameTok (inl ++ openTok :: (lineTokens (l :: ls) ++ [closeTok]))
          0) := NewDispenser_Next_cons _ _
    unfold UnmarshalCaddyfile
    rw [hfuel, directiveLoop_succ, hN]
    simp only [if_true]
    rw [h2]
    simp only [on_Nesting]
    rw [hb]
    simp only
    have e : ls.length + inl.length + 4 + ls.length + 2 =
        (ls.length + inl.length + 4 + ls.length + 1) + 1 := by omega
    rw [e, directiveLoop_succ, on_Next_nil]
    simp only [Bool.false_eq_true, if_false, on_Err]
    split <;> rfl

theorem applyLines_append (p : Provider) (xs ys : List (Token × Token)) :
    applyLines p (xs ++ ys) = applyLines (applyLines p xs) ys := by
  simp [applyLines, List.foldl_append]

theorem linesOK_append (xs ys : List (Token × Token)) :
    ∀ p : Provider, linesOK p (xs ++ ys) → linesOK p xs ∧ linesOK (applyLines p xs) ys := by
  induction xs with
  | nil => intro p h; exact ⟨trivial, h⟩
  | cons x xs ih =>
    intro p h
    obtain ⟨h1, h2⟩ := h
    obtain ⟨i1, i2⟩ := ih _ h2
    exact ⟨⟨h1, i1⟩, i2⟩

theorem applySub_PageSize (p : Provider) (name value : String) (h : name ≠ "api_pagesize") :
    (applySub p name value).PageSize = p.PageSize := by
  unfold applySub
  split_ifs <;> rfl

theorem applySub_HTTPClient (p : Provider) (name value : String) (h : name ≠ "api_timeout") :
    (applySub p name value).HTTPClient = p.HTTPClient := by
  unfold applySub
  split_ifs <;> rfl

theorem applyLines_PageSize (ls : List (Token × Token)) :
    ∀ p : Provider, (∀ m ∈ ls, m.1.Text ≠ "api_pagesize") →
      (applyLines p ls).PageSize = p.PageSize := by
  induction ls with
  | nil => intro p _; rfl
  | cons l ls ih =>
    intro p h
    have := ih (applySub p l.1.Text l.2.Text) (fun m hm => h m (List.mem_cons_of_mem _ hm))
    simp only [applyLines, List.foldl_cons] at this ⊢
    rw [this, applySub_PageSize _ _ _ (h l (List.mem_cons_self _ _))]

theorem applyLines_HTTPClient (ls : List (Token × Token)) :
    ∀ p : Provider, (∀ m ∈ ls, m.1.Text ≠ "api_timeout") →
      (applyLines p ls).HTTPClient = p.HTTPClient := by
  induction ls with
  | nil => intro p _; rfl
  | cons l ls ih =>
    intro p h
    have := ih (applySub p l.1.Text l.2.Text) (fun m hm => h m (List.mem_cons_of_mem _ hm))
    simp only [applyLines, List.foldl_cons] at this ⊢
    rw [this, applySub_HTTPClient _ _ _ (h l (List.mem_cons_self _ _))]

/-- The value an accepted numeric line stores is the value of its text. -/
theorem subOK_numeric_value (p : Provider) (name value : String) (n : Int)
    (hok : subOK p name value) (hname : name = "api_pagesize" ∨ name = "api_timeout")
    (hn : decimalValue value.toList = some n) : (Atoi value).1 = n ∧ 0 < n := by
  have h2 : (Atoi value).2 = none ∧ 0 < (Atoi value).1 := by
    rcases hok.2 with h | h | h | h | h
    · rcases hname with e | e <;> (rw [e] at h; exact absurd h.1 (by decide))
    · rcases hname with e | e <;> (rw [e] at h; exact absurd h.1 (by decide))
    · rcases hname with e | e <;> (rw [e] at h; exact absurd h.1 (by decide))
    · exact h.2
    · exact h.2
  have h3 : Atoi value = ((Atoi value).1, none) := by rw [← h2.1]
  have h4 := ((Atoi_ok_iff value _).mp h3).1
  rw [hn] at h4
  have h5 : n = (Atoi value).1 := Option.some.inj h4
  rw [← h5] at h2
  exact ⟨h5.symm, h2.2⟩

theorem expandFields_idem (f : String → String) (hf : ∀ s, f (f s) = f s) (p : Provider) :
    expandFields f (expandFields f p) = expandFields f p := by
  simp [expandFields, hf]

theorem PopulateFromEnv_idem (env : Env) (p : Provider) :
    PopulateFromEnv env (PopulateFromEnv env p) = PopulateFromEnv env p := by
  obtain ⟨k, s, u, n, c⟩ := p
  simp only [PopulateFromEnv]
  by_cases hk : k = "" <;> by_cases hs : s = "" <;> by_cases hu : u = "" <;>
    simp [hk, hs, hu]

theorem defaultTimeout_idem (p : Provider) : defaultTimeout (defaultTimeout p) = defaultTimeout p := by
  obtain ⟨k, s, u, n, c⟩ := p
  cases c with
  | none => rfl
  | some c =>
    by_cases h : c.Timeout = 0
    · simp [defaultTimeout, h, Second]
    · simp [defaultTimeout, h]

theorem expand_field_round (f : String → String) (hf : ∀ s, f (f s) = f s) (e x : String) :
    f (if f (f (if f x = "" then e else f x)) = "" then e
        else f (f (if f x = "" then e else f x))) =
      f (if f x = "" then e else f x) := by
  by_cases hx : f x = ""
  · simp only [hx, if_true, hf]
    by_cases he : f e = ""
    · simp [he]
    · simp [he, hf]
  · simp only [hx, if_false, hf]

theorem expand_populate_expand (f : String → String) (hf : ∀ s, f (f s) = f s) (env : Env)
    (p : Provider) :
    expandFields f (PopulateFromEnv env (expandFields f
        (expandFields f (PopulateFromEnv env (expandFields f p))))) =
      expandFields f (PopulateFromEnv env (expandFields f p)) := by
  obtain ⟨k, s, u, n, c⟩ := p
  simp only [expandFields, PopulateFromEnv, Provider.mk.injEq, and_true]
  exact ⟨expand_field_round f hf _ k, expand_field_round f hf _ s, expand_field_round f hf _ u⟩

theorem expandFields_defaultTimeout (f : String → String) (p : Provider) :
    expandFields f (defaultTimeout p) = defaultTimeout (expandFields f p) := by
  obtain ⟨k, s, u, n, c⟩ := p
  cases c with
  | none => rfl
  | some c =>
    by_cases h : c.Timeout = 0
    · simp [defaultTimeout, expandFields, h]
    · simp [defaultTimeout, expandFields, h]

theorem PopulateFromEnv_defaultTimeout (env : Env) (p : Provider) :
    PopulateFromEnv env (defaultTimeout p) = defaultTimeout (PopulateFromEnv env p) := by
  obtain ⟨k, s, u, n, c⟩ := p
  cases c with
  | none => rfl
  | some c =>
    by_cases h : c.Timeout = 0
    · simp [defaultTimeout, PopulateFromEnv, h]
    · simp [defaultTimeout, PopulateFromEnv, h]

/-- The arity checks of the five cases: with no value argument, or with a second argument
after the value, the switch returns an error. -/
theorem subdirective_arity_error (p : Provider) (d : Dispenser)
    (hname : d.Val = "api_key" ∨ d.Val = "api_secret" ∨ d.Val = "api_url" ∨
      d.Val = "api_pagesize" ∨ d.Val = "api_timeout") :
    ((d.NextArg).1 = false → ∃ e, (subdirective p d).2.2 = some e) ∧
    ((d.NextArg).1 = true → ((d.NextArg).2.NextArg).1 = true →
      ∃ e, (subdirective p d).2.2 = some e) := by
  constructor
  · intro h0
    rcases hname with h | h | h | h | h
    · by_cases hp : p.APIKey = "" <;> simp [subdirective, h, h0, hp]
    · by_cases hp : p.APISecret = "" <;> simp [subdirective, h, h0, hp]
    · by_cases hp : p.BaseURL = "" <;> simp [subdirective, h, h0, hp]
    · simp [subdirective, h, h0]
    · simp [subdirective, h, h0]
  · intro h1 h2
    rcases hname with h | h | h | h | h
    · by_cases hp : p.APIKey = "" <;> simp [subdirective, noExtraArgs, h, h1, h2, hp]
    · by_cases hp : p.APISecret = "" <;> simp [subdirective, noExtraArgs, h, h1, h2, hp]
    · by_cases hp : p.BaseURL = "" <;> simp [subdirective, noExtraArgs, h, h1, h2, hp]
    · by_cases hv : (Atoi (d.NextArg).2.Val).2 ≠ none ∨ (Atoi (d.NextArg).2.Val).1 ≤ 0
      · simp only [subdirective, h, h1]
        simp [hv]
      · simp only [subdirective, h, h1]
        simp [hv, noExtraArgs, h2]
    · by_cases hv : (Atoi (d.NextArg).2.Val).2 ≠ none ∨ (Atoi (d.NextArg).2.Val).1 ≤ 0
      · simp only [subdirective, h, h1]
        simp [hv]
      · simp only [subdirective, h, h1]
        simp [hv, noExtraArgs, h2]

/-! ## Claims on arity, overwriting, idempotence, atomicity and frame -/

/-- C11: sub-directive arity.  The directive carries up to two inline arguments and its block
starts with accepted lines `ls`; the next line starts with the token `x`, one of the five
recognized names.  If the line of `x` ends right after `x` (no value), or `x` is followed on
its line by two tokens `v`, `w` that are arguments (two or more values), `UnmarshalCaddyfile`
returns an error. -/
theorem subdirective_arity (p : Provider) (nameTok openTok x : Token) (inl rest : List Token)
    (ls : List (Token × Token))
    (hlen : inl.length ≤ 2) (hinl : InlineOK nameTok inl openTok) (hopen : openTok.Text = "\x7b")
    (hlaid : Laid ls (x :: rest)) (hok : linesOK (applyInline p inl) ls)
    (hname : x.Text = "api_key" ∨ x.Text = "api_secret" ∨ x.Text = "api_url" ∨
      x.Text = "api_pagesize" ∨ x.Text = "api_timeout") :
    (lineEnds x rest →
      ∃ q d e, UnmarshalCaddyfile p
          (NewDispenser (nameTok :: inl ++ openTok :: (lineTokens ls ++ x :: rest))) =
        some (q, d, some e)) ∧
    (∀ (v w : Token) (tail : List Token), rest = v :: w :: tail →
      isNextOnNewLine x v = false → isNextOnNewLine v w = false →
      v.Text ≠ "\x7b" → w.Text ≠ "\x7b" →
      ∃ q d e, UnmarshalCaddyfile p
          (NewDispenser (nameTok :: inl ++ openTok :: (lineTokens ls ++ x :: rest))) =
        some (q, d, some e)) := by
  have hx : x.Text ≠ "\x7d" ∧ x.Text ≠ "\x7b" := by
    rcases hname with h | h | h | h | h <;> rw [h] <;> decide
  have key := subdirective_arity_error (applyLines (applyInline p inl) ls)
    (Dispenser.on (nameTok :: inl ++ openTok :: lineTokens ls) x rest 1)
    (by simpa using hname)
  constructor
  · intro hend
    obtain ⟨e, he⟩ := key.1 (by rw [on_NextArg_lineEnds _ _ _ _ hend])
    exact ⟨_, _, e, unmarshal_reach p nameTok openTok x inl rest ls e hlen hinl hopen
      hx.1 hx.2 hlaid hok he⟩
  · intro v w tail hrest hxv hvw hv hw
    subst hrest
    have h1 : (Dispenser.on (nameTok :: inl ++ openTok :: lineTokens ls) x
        (v :: w :: tail) 1).NextArg =
        (true, Dispenser.on ((nameTok :: inl ++ openTok :: lineTokens ls) ++ [x]) v
          (w :: tail) 1) := by
      simp [on_NextArg_cons, hxv, hv]
    have h2 : (Dispenser.on ((nameTok :: inl ++ openTok :: lineTokens ls) ++ [x]) v
        (w :: tail) 1).NextArg.1 = true := by
      simp [on_NextArg_cons, hvw, hw]
    obtain ⟨e, he⟩ := key.2 (by rw [h1]) (by rw [h1]; exact h2)
    exact ⟨_, _, e, unmarshal_reach p nameTok openTok x inl (v :: w :: tail) ls e hlen hinl
      hopen hx.1 hx.2 hlaid hok he⟩

/-- Witness for C11: `api_url` with two values after an accepted `api_key` line. -/
theorem subdirective_arity_witness :
    ∃ q d e, UnmarshalCaddyfile Provider.empty (NewDispenser
      [tok 1 "spaceship", tok 1 "\x7b", tok 2 "api_key", tok 2 "k",
       tok 3 "api_url", tok 3 "u", tok 3 "extra", tok 4 "\x7d"]) = some (q, d, some e) :=
  (subdirective_arity Provider.empty (tok 1 "spaceship") (tok 1 "\x7b") (tok 3 "api_url") []
    [tok 3 "u", tok 3 "extra", tok 4 "\x7d"] [(tok 2 "api_key", tok 2 "k")]
    (by decide) (by decide) (by decide) (by decide) (by decide) (by decide)).2
    (tok 3 "u") (tok 3 "extra") [tok 4 "\x7d"] rfl (by decide) (by decide) (by decide)
    (by decide)

/-- Counterexample to C12 as stated: with three inline arguments `k s x` the error returned
has the text `wrong argument count or unexpected line ending after 'x'`, in which the text
`too many arguments` does not occur. -/
theorem inline_arity_error_text :
    (UnmarshalCaddyfile Provider.empty
        (NewDispenser [tok 1 "spaceship", tok 1 "k", tok 1 "s", tok 1 "x"])).map
      (fun r => r.2.2.map
        (fun e => (e.msg, occursIn "too many arguments".toList e.msg.toList))) =
      some (some ("wrong argument count or unexpected line ending after 'x'", false)) := by
  decide

/-- C12 (amended): inline arity.  After the directive name `nameTok` has been read, the inline
part accepts zero, one or two argument tokens on its line: it returns no error, stores the
first as `APIKey` and the second as `APISecret`, and leaves the cursor on the last of them.
When the name is followed on its line by three tokens `a`, `b`, `c` that are arguments
(whatever follows them), `UnmarshalCaddyfile` stores `a` as `APIKey` and `b` as `APISecret`
and returns the dispenser's argument error, whose text is
`wrong argument count or unexpected line ending after '<c>'`, at `c`; the cursor stays on `c`,
the block is not read. -/
theorem inline_arity (p : Provider) (nameTok : Token) :
    (∀ rest : List Token, argsEnd nameTok rest →
      inlineArgs p (NewDispenser (nameTok :: rest)).Next.2 =
        (p, Dispenser.on [] nameTok rest 0, none)) ∧
    (∀ (a : Token) (rest : List Token),
      isNextOnNewLine nameTok a = false → a.Text ≠ "\x7b" → argsEnd a rest →
      inlineArgs p (NewDispenser (nameTok :: a :: rest)).Next.2 =
        ({ p with APIKey := a.Text }, Dispenser.on [nameTok] a rest 0, none)) ∧
    (∀ (a b : Token) (rest : List Token),
      isNextOnNewLine nameTok a = false → isNextOnNewLine a b = false →
      a.Text ≠ "\x7b" → b.Text ≠ "\x7b" → argsEnd b rest →
      inlineArgs p (NewDispenser (nameTok :: a :: b :: rest)).Next.2 =
        ({ p with APIKey := a.Text, APISecret := b.Text },
          Dispenser.on [nameTok, a] b rest 0, none)) ∧
    (∀ (a b c : Token) (rest : List Token),
      isNextOnNewLine nameTok a = false → isNextOnNewLine a b = false →
      isNextOnNewLine b c = false →
      a.Text ≠ "\x7b" → b.Text ≠ "\x7b" → c.Text ≠ "\x7b" →
      UnmarshalCaddyfile p (NewDispenser (nameTok :: a :: b :: c :: rest)) =
        some ({ p with APIKey := a.Text, APISecret := b.Text },
          Dispenser.on [nameTok, a, b] c rest 0,
          some ⟨"wrong argument count or unexpected line ending after '" ++ c.Text ++ "'",
            c.File, c.Line, c.imports⟩)) := by
  refine ⟨fun rest h => ?_, fun a rest h1 ha h => ?_, fun a b rest h1 h2 ha hb h => ?_,
    fun a b c rest h1 h2 h3 ha hb hc => ?_⟩
  · rw [NewDispenser_Next_cons]
    simp [inlineArgs, on_NextArg_argsEnd _ _ _ _ h]
  · rw [NewDispenser_Next_cons]
    have e := on_NextArg_argsEnd [nameTok] a rest 0 h
    simp [inlineArgs, on_NextArg_cons, h1, ha, e]
  · rw [NewDispenser_Next_cons]
    have e := on_NextArg_argsEnd [nameTok, a] b rest 0 h
    simp [inlineArgs, on_NextArg_cons, h1, h2, ha, hb, e]
  · have hfuel : (NewDispenser (nameTok :: a :: b :: c :: rest)).fuel =
        (rest.length + 5) + 1 := by
      rw [NewDispenser_fuel]; simp only [List.length_cons]
    unfold UnmarshalCaddyfile
    rw [hfuel, directiveLoop_succ, NewDispenser_Next_cons]
    simp [inlineArgs, on_NextArg_cons, h1, h2, h3, ha, hb, hc, Dispenser.ArgErr]

/-- Witness for C12: no inline argument before a block, one argument before a new line, two
arguments at the end of the stream, and three arguments before a block. -/
theorem inline_arity_witness :
    (inlineArgs Provider.empty (NewDispenser [tok 1 "spaceship", tok 1 "\x7b", tok 2 "api_url",
        tok 2 "u", tok 3 "\x7d"]).Next.2 =
      (Provider.empty,
        Dispenser.on [] (tok 1 "spaceship") [tok 1 "\x7b", tok 2 "api_url", tok 2 "u",
          tok 3 "\x7d"] 0, none)) ∧
    (inlineArgs Provider.empty (NewDispenser [tok 1 "spaceship", tok 1 "k", tok 2 "next"]).Next.2 =
      (⟨"k", "", "", 0, none⟩, Dispenser.on [tok 1 "spaceship"] (tok 1 "k") [tok 2 "next"] 0,
        none)) ∧
    (inlineArgs Provider.empty (NewDispenser [tok 1 "spaceship", tok 1 "k", tok 1 "s"]).Next.2 =
      (⟨"k", "s", "", 0, none⟩, Dispenser.on [tok 1 "spaceship", tok 1 "k"] (tok 1 "s") [] 0,
        none)) ∧
    UnmarshalCaddyfile Provider.empty (NewDispenser
      [tok 1 "spaceship", tok 1 "k", tok 1 "s", tok 1 "x", tok 1 "\x7b",
       tok 2 "api_url", tok 2 "u", tok 3 "\x7d"]) =
      some (⟨"k", "s", "", 0, none⟩,
        Dispenser.on [tok 1 "spaceship", tok 1 "k", tok 1 "s"] (tok 1 "x")
          [tok 1 "\x7b", tok 2 "api_url", tok 2 "u", tok 3 "\x7d"] 0,
        some ⟨"wrong argument count or unexpected line ending after 'x'", "Caddyfile", 1,
          []⟩) :=
  ⟨(inline_arity Provider.empty (tok 1 "spaceship")).1
      [tok 1 "\x7b", tok 2 "api_url", tok 2 "u", tok 3 "\x7d"] (by decide),
    (inline_arity Provider.empty (tok 1 "spaceship")).2.1 (tok 1 "k") [tok 2 "next"]
      (by decide) (by decide) (by decide),
    (inline_arity Provider.empty (tok 1 "spaceship")).2.2.1 (tok 1 "k") (tok 1 "s") []
      (by decide) (by decide) (by decide) (by decide) (by decide),
    (inline_arity Provider.empty (tok 1 "spaceship")).2.2.2 (tok 1 "k") (tok 1 "s") (tok 1 "x")
      [tok 1 "\x7b", tok 2 "api_url", tok 2 "u", tok 3 "\x7d"]
      (by decide) (by decide) (by decide) (by decide) (by decide) (by decide)⟩

/-- C13 (code bug): the provider already holds credentials before parsing.  The inline form
`spaceship new news` returns no error and replaces both of them, while on the same provider
the sub-directive line `api_key new` returns `api_key already set` and keeps them: the
assignment of the inline arguments lacks the check made by the sub-directives. -/
theorem inline_overwrites_set_credential :
    UnmarshalCaddyfile ⟨"old", "olds", "", 0, none⟩
        (NewDispenser [tok 1 "spaceship", tok 1 "new", tok 1 "news"]) =
      some (⟨"new", "news", "", 0, none⟩,
        Dispenser.on [tok 1 "spaceship", tok 1 "new"] (tok 1 "news") [] 0, none) ∧
    UnmarshalCaddyfile ⟨"old", "olds", "", 0, none⟩
        (NewDispenser [tok 1 "spaceship", tok 1 "\x7b", tok 2 "api_key", tok 2 "new",
          tok 3 "\x7d"]) =
      some (⟨"old", "olds", "", 0, none⟩,
        Dispenser.on [tok 1 "spaceship", tok 1 "\x7b"] (tok 2 "api_key")
          [tok 2 "new", tok 3 "\x7d"] 1,
        some ⟨"api_key already set", "Caddyfile", 2, []⟩) := by
  decide

/-- The check made by the sub-directives.  At every state of the block loop an `api_key`,
`api_secret` or `api_url` sub-directive met while its field is non-empty returns the
`already set` error and leaves the provider as it is; hence a run of the block loop never
changes a non-empty `APIKey`, `APISecret` or `BaseURL`, and a non-empty `BaseURL` is never
changed by `UnmarshalCaddyfile` at all. -/
theorem no_overwrite_by_subdirective :
    (∀ (p : Provider) (d : Dispenser),
      (d.Val = "api_key" → p.APIKey ≠ "" →
        subdirective p d = (p, d, some (d.Err "api_key already set"))) ∧
      (d.Val = "api_secret" → p.APISecret ≠ "" →
        subdirective p d = (p, d, some (d.Err "api_secret already set"))) ∧
      (d.Val = "api_url" → p.BaseURL ≠ "" →
        subdirective p d = (p, d, some (d.Err "api_url already set")))) ∧
    (∀ (init : Int) (fuel : Nat) (p : Provider) (d : Dispenser) (r : Step),
      blockLoop init fuel p d = some r →
      (p.APIKey ≠ "" → r.1.APIKey = p.APIKey) ∧
      (p.APISecret ≠ "" → r.1.APISecret = p.APISecret) ∧
      (p.BaseURL ≠ "" → r.1.BaseURL = p.BaseURL)) ∧
    (∀ (p : Provider) (d : Dispenser), ∃ r, UnmarshalCaddyfile p d = some r ∧
      (p.BaseURL ≠ "" → r.1.BaseURL = p.BaseURL)) := by
  refine ⟨fun p d => ?_, fun init fuel p d r h => ⟨fun hk => ?_, fun hs => ?_, fun hu => ?_⟩,
    fun p d => ?_⟩
  · refine ⟨fun h1 h2 => ?_, fun h1 h2 => ?_, fun h1 h2 => ?_⟩ <;> simp [subdirective, h1, h2]
  · exact (blockLoop_inv init d.tokens (fun q => q.APIKey = p.APIKey)
      (fun q e _ hq =>
        (subdirective_keeps_APIKey q e
          (by rw [show q.APIKey = p.APIKey from hq]; exact hk)).trans hq) fuel p d r rfl rfl h).1
  · exact (blockLoop_inv init d.tokens (fun q => q.APISecret = p.APISecret)
      (fun q e _ hq =>
        (subdirective_keeps_APISecret q e
          (by rw [show q.APISecret = p.APISecret from hq]; exact hs)).trans hq) fuel p d r rfl rfl h).1
  · exact (blockLoop_inv init d.tokens (fun q => q.BaseURL = p.BaseURL)
      (fun q e _ hq =>
        (subdirective_keeps_BaseURL q e
          (by rw [show q.BaseURL = p.BaseURL from hq]; exact hu)).trans hq) fuel p d r rfl rfl h).1
  · obtain ⟨r, hr⟩ := UnmarshalCaddyfile_total p d
    refine ⟨r, hr, fun hu => ?_⟩
    exact UnmarshalCaddyfile_inv (fun q => q.BaseURL = p.BaseURL) p d r
      (fun q e _ hq =>
        (subdirective_keeps_BaseURL q e
          (by rw [show q.BaseURL = p.BaseURL from hq]; exact hu)).trans hq)
      (fun q e _ hq => ((inlineArgs_fields q e).1).trans hq) rfl hr

/-- Counterexample to C14 as stated: an expander that resolves one placeholder to a text
holding another placeholder.  Expanding twice differs from expanding once, and running
`Provision` on the result of `Provision` changes `APIKey` again. -/
theorem expansion_not_idempotent :
    expandFields
        (fun s => if s = "\x7ba\x7d" then "\x7bb\x7d" else if s = "\x7bb\x7d" then "\x7bc\x7d"
          else if s = "\x7bc\x7d" then "key" else s)
        (expandFields
          (fun s => if s = "\x7ba\x7d" then "\x7bb\x7d" else if s = "\x7bb\x7d" then "\x7bc\x7d"
            else if s = "\x7bc\x7d" then "key" else s)
          ⟨"\x7ba\x7d", "secret", "", 0, none⟩) ≠
      expandFields
        (fun s => if s = "\x7ba\x7d" then "\x7bb\x7d" else if s = "\x7bb\x7d" then "\x7bc\x7d"
          else if s = "\x7bc\x7d" then "key" else s)
        ⟨"\x7ba\x7d", "secret", "", 0, none⟩ ∧
    Provision
        (fun s => if s = "\x7ba\x7d" then "\x7bb\x7d" else if s = "\x7bb\x7d" then "\x7bc\x7d"
          else if s = "\x7bc\x7d" then "key" else s)
        (PopulateFromEnv ⟨"", "", ""⟩)
        (Provision
          (fun s => if s = "\x7ba\x7d" then "\x7bb\x7d" else if s = "\x7bb\x7d" then "\x7bc\x7d"
            else if s = "\x7bc\x7d" then "key" else s)
          (PopulateFromEnv ⟨"", "", ""⟩) ⟨"\x7ba\x7d", "secret", "", 0, none⟩).1 ≠
      Provision
        (fun s => if s = "\x7ba\x7d" then "\x7bb\x7d" else if s = "\x7bb\x7d" then "\x7bc\x7d"
          else if s = "\x7bc\x7d" then "key" else s)
        (PopulateFromEnv ⟨"", "", ""⟩) ⟨"\x7ba\x7d", "secret", "", 0, none⟩ := by
  decide

/-- C14 (amended): the steps of `Provision` are total functions; the environment fallback
(filling only empty fields), the timeout default and the credential check (which leaves the
provider as it is) are idempotent for every environment; placeholder expansion is idempotent
for every expander `f` with `f (f s) = f s`; and for such an expander running `Provision` on
the result of a previous `Provision` changes nothing and returns the same outcome. -/
theorem provision_idempotent_steps :
    (∀ (f : String → String), (∀ s, f (f s) = f s) → ∀ p : Provider,
      expandFields f (expandFields f p) = expandFields f p) ∧
    (∀ (env : Env) (p : Provider),
      PopulateFromEnv env (PopulateFromEnv env p) = PopulateFromEnv env p) ∧
    (∀ p : Provider, defaultTimeout (defaultTimeout p) = defaultTimeout p) ∧
    (∀ (f : String → String) (fallback : Provider → Provider) (p : Provider),
      (Provision f fallback p).1 = defaultTimeout (expandFields f (fallback (expandFields f p)))) ∧
    (∀ (f : String → String) (env : Env) (p : Provider), (∀ s, f (f s) = f s) →
      Provision f (PopulateFromEnv env) (Provision f (PopulateFromEnv env) p).1 =
        Provision f (PopulateFromEnv env) p) := by
  refine ⟨expandFields_idem, PopulateFromEnv_idem, defaultTimeout_idem, Provision_fst, ?_⟩
  intro f env p hf
  have hfst : (Provision f (PopulateFromEnv env) (Provision f (PopulateFromEnv env) p).1).1 =
      (Provision f (PopulateFromEnv env) p).1 := by
    rw [Provision_fst, Provision_fst, expandFields_defaultTimeout, PopulateFromEnv_defaultTimeout,
      expandFields_defaultTimeout, defaultTimeout_idem, expand_populate_expand f hf]
  have hsnd : (Provision f (PopulateFromEnv env) (Provision f (PopulateFromEnv env) p).1).2 =
      (Provision f (PopulateFromEnv env) p).2 := by
    have hk := congrArg Provider.APIKey hfst
    have hs := congrArg Provider.APISecret hfst
    rw [Provision_fst, Provision_fst, (defaultTimeout_fields _).1] at hk
    rw [Provision_fst, Provision_fst, (defaultTimeout_fields _).2.1] at hs
    rw [Provision_snd, Provision_snd, Provision_fst, hk, hs,
      (defaultTimeout_fields _).1, (defaultTimeout_fields _).2.1]
  exact Prod.ext hfst hsnd

/-- C15: parsing is not atomic.  A directive with a single inline key and no secret, and the
line `api_key k extra` inside a block, both end in an error while the provider, empty at the
start, already holds the key. -/
theorem parsing_not_atomic :
    (UnmarshalCaddyfile Provider.empty (NewDispenser [tok 1 "spaceship", tok 1 "k"]) =
      some (⟨"k", "", "", 0, none⟩, Dispenser.on [tok 1 "spaceship"] (tok 1 "k") [] 0,
        some ⟨"missing api_key or api_secret", "Caddyfile", 1, []⟩) ∧
      (⟨"k", "", "", 0, none⟩ : Provider) ≠ Provider.empty) ∧
    (UnmarshalCaddyfile Provider.empty (NewDispenser
        [tok 1 "spaceship", tok 1 "\x7b", tok 2 "api_key", tok 2 "k", tok 2 "extra",
         tok 3 "\x7d"]) =
      some (⟨"k", "", "", 0, none⟩,
        Dispenser.on [tok 1 "spaceship", tok 1 "\x7b", tok 2 "api_key", tok 2 "k"]
          (tok 2 "extra") [tok 3 "\x7d"] 1,
        some ⟨"wrong argument count or unexpected line ending after 'extra'", "Caddyfile", 2,
          []⟩) ∧
      (⟨"k", "", "", 0, none⟩ : Provider) ≠ Provider.empty) := by
  decide

/-- The last value of a numeric setting is the one converted and stored.  The directive carries up to two inline
arguments and a block of accepted lines `pre ++ (a, v) :: post` (repeats of `api_pagesize`
and `api_timeout` are accepted), with both credentials non-empty in the end.  If `a` is
`api_pagesize`, `v` reads as the integer `n` and no later line is `api_pagesize`,
`UnmarshalCaddyfile` returns no error and `PageSize = n`; if `a` is `api_timeout` and no later
line is `api_timeout`, it returns no error and the HTTP client's `Timeout` is the 64-bit
product `secondsToDuration n`, which is `n` seconds only for `n ≤ 9223372036`. -/
theorem last_value_wins (p : Provider) (nameTok openTok closeTok a v : Token)
    (inl : List Token) (pre post : List (Token × Token)) (n : Int)
    (hlen : inl.length ≤ 2) (hinl : InlineOK nameTok inl openTok) (hopen : openTok.Text = "\x7b")
    (hclose : closeTok.Text = "\x7d") (hlaid : Laid (pre ++ (a, v) :: post) [closeTok])
    (hok : linesOK (applyInline p inl) (pre ++ (a, v) :: post))
    (hcred : (applyLines (applyInline p inl) (pre ++ (a, v) :: post)).APIKey ≠ "" ∧
      (applyLines (applyInline p inl) (pre ++ (a, v) :: post)).APISecret ≠ "")
    (hn : decimalValue v.Text.toList = some n) :
    (a.Text = "api_pagesize" → (∀ m ∈ post, m.1.Text ≠ "api_pagesize") →
      ∃ q d, UnmarshalCaddyfile p (NewDispenser
          (nameTok :: inl ++ openTok :: (lineTokens (pre ++ (a, v) :: post) ++ [closeTok]))) =
        some (q, d, none) ∧ q.PageSize = n) ∧
    (a.Text = "api_timeout" → (∀ m ∈ post, m.1.Text ≠ "api_timeout") →
      ∃ q d c, UnmarshalCaddyfile p (NewDispenser
          (nameTok :: inl ++ openTok :: (lineTokens (pre ++ (a, v) :: post) ++ [closeTok]))) =
        some (q, d, none) ∧ q.HTTPClient = some c ∧ c.Timeout = secondsToDuration n ∧
        (n ≤ 9223372036 → c.Timeout = n * 1000000000)) := by
  have hrun := unmarshal_block_inline p nameTok openTok closeTok inl (pre ++ (a, v) :: post)
    hlen hinl hopen hclose (by simp) hlaid hok
  rw [if_neg (by simp [hcred.1, hcred.2])] at hrun
  obtain ⟨_, hok2⟩ := linesOK_append pre ((a, v) :: post) _ hok
  have hsub : subOK (applyLines (applyInline p inl) pre) a.Text v.Text := hok2.1
  have hsplit : applyLines (applyInline p inl) (pre ++ (a, v) :: post) =
      applyLines (applySub (applyLines (applyInline p inl) pre) a.Text v.Text) post := by
    rw [applyLines_append]; rfl
  constructor
  · intro ha hpost
    obtain ⟨hval, _⟩ := subOK_numeric_value _ _ _ n hsub (Or.inl ha) hn
    refine ⟨_, _, hrun, ?_⟩
    rw [hsplit, applyLines_PageSize post _ hpost, ha]
    simp [applySub, hval]
  · intro ha hpost
    obtain ⟨hval, hpos⟩ := subOK_numeric_value _ _ _ n hsub (Or.inr ha) hn
    refine ⟨_, _, withTimeout (applyLines (applyInline p inl) pre).HTTPClient
      (secondsToDuration n), hrun, ?_, ?_, ?_⟩
    · rw [hsplit, applyLines_HTTPClient post _ hpost, ha]
      simp only [applySub, hval]
      simp [withTimeout]
    · unfold withTimeout; split <;> rfl
    · intro hle
      have : (withTimeout (applyLines (applyInline p inl) pre).HTTPClient
          (secondsToDuration n)).Timeout = secondsToDuration n := by
        unfold withTimeout; split <;> rfl
      rw [this]
      exact secondsToDuration_small n (by omega) hle

/-- An instance of `last_value_wins`: `api_pagesize` given twice, the second value is the one
kept. -/
theorem last_value_wins_witness :
    ∃ q d, UnmarshalCaddyfile Provider.empty (NewDispenser
      [tok 1 "spaceship", tok 1 "k", tok 1 "s", tok 1 "\x7b",
       tok 2 "api_pagesize", tok 2 "10", tok 3 "api_pagesize", tok 3 "250",
       tok 4 "api_url", tok 4 "u", tok 5 "\x7d"]) = some (q, d, none) ∧ q.PageSize = 250 :=
  (last_value_wins Provider.empty (tok 1 "spaceship") (tok 1 "\x7b") (tok 5 "\x7d")
    (tok 3 "api_pagesize") (tok 3 "250") [tok 1 "k", tok 1 "s"]
    [(tok 2 "api_pagesize", tok 2 "10")] [(tok 4 "api_url", tok 4 "u")] 250
    (by decide) (by decide) (by decide) (by decide) (by decide) (by decide) (by decide)
    (by decide)).1 (by decide) (by decide)

/-- C16 (code bug, the defect of C6): an otherwise valid block repeats `api_timeout` with the
accepted values `5` and `9223372037`.  `UnmarshalCaddyfile` returns no error and converts the
last value, but `time.Duration(secs) * time.Second` wraps around in 64 bits: the stored
`Timeout` is `-9223372036709551616` ns, not the value of the last occurrence, 9223372037
seconds (`9223372037000000000` ns). -/
theorem last_timeout_overflow :
    (UnmarshalCaddyfile Provider.empty (NewDispenser
      [tok 1 "spaceship", tok 1 "k", tok 1 "s", tok 1 "\x7b",
       tok 2 "api_timeout", tok 2 "5", tok 3 "api_timeout", tok 3 "9223372037",
       tok 4 "\x7d"])).map (fun r => (r.1.HTTPClient, r.2.2)) =
      some (some ⟨-9223372036709551616, 0⟩, none) ∧
    (-9223372036709551616 : Int) ≠ 9223372037 * 1000000000 := by
  decide

/-- C17: frame of the parser.  `UnmarshalCaddyfile` always returns, with or without error,
and for a token stream without a token `api_pagesize` it leaves `PageSize` as it was; without
a token `api_timeout` it leaves the HTTP client (hence its `Timeout`) as it was; without a
token `api_url` it leaves `BaseURL` as it was. -/
theorem parser_frame (p : Provider) (d : Dispenser) :
    ∃ r, UnmarshalCaddyfile p d = some r ∧
      ((∀ t ∈ d.tokens, t.Text ≠ "api_pagesize") → r.1.PageSize = p.PageSize) ∧
      ((∀ t ∈ d.tokens, t.Text ≠ "api_timeout") → r.1.HTTPClient = p.HTTPClient) ∧
      ((∀ t ∈ d.tokens, t.Text ≠ "api_url") → r.1.BaseURL = p.BaseURL) := by
  obtain ⟨r, hr⟩ := UnmarshalCaddyfile_total p d
  refine ⟨r, hr, fun h => ?_, fun h => ?_, fun h => ?_⟩
  · exact UnmarshalCaddyfile_inv (fun q => q.PageSize = p.PageSize) p d r
      (fun q e he hq =>
        (subdirective_PageSize q e
          (Val_ne_of_absent e _ (by decide) (by rw [he]; exact h))).trans hq)
      (fun q e _ hq => ((inlineArgs_fields q e).2.1).trans hq) rfl hr
  · exact UnmarshalCaddyfile_inv (fun q => q.HTTPClient = p.HTTPClient) p d r
      (fun q e he hq =>
        (subdirective_HTTPClient q e
          (Val_ne_of_absent e _ (by decide) (by rw [he]; exact h))).trans hq)
      (fun q e _ hq => ((inlineArgs_fields q e).2.2).trans hq) rfl hr
  · exact UnmarshalCaddyfile_inv (fun q => q.BaseURL = p.BaseURL) p d r
      (fun q e he hq =>
        (subdirective_BaseURL q e
          (Val_ne_of_absent e _ (by decide) (by rw [he]; exact h))).trans hq)
      (fun q e _ hq => ((inlineArgs_fields q e).1).trans hq) rfl hr

end Spaceship
